import Mathlib

/-!
# WebWhir HTML tokenizer: a shallow embedding of `HTMLParser.cpp`

The definitions below follow `src/src/HTMLParser/HTMLParser.cpp`.
A `std::wstring` is a `List Char`; the iterator `it` of the tokenizer loop is
the list of characters from `it` to the end of the string.

The token classes (`HTMLToken`, `StartToken`, `EndToken`, `DoctypeToken`,
`CommentToken`), the enum `tokenizer_state` and the helper
`get_wstring_iposition` are declared in files that are not part of the
sources at hand; they are modelled from the specification and marked so.
-/

namespace WebWhir

/-! ## Character classes -/

/-- The global `space_chars` set: tab, line feed, form feed, space. -/
def space_chars : List Char := ['\t', '\n', '\x0c', ' ']

/-- The test `space_chars.count(next_char) != 0`. -/
def is_space (c : Char) : Bool := space_chars.contains c

/-- The C library `isalpha` in the "C" locale, on its domain (values up to
255): ASCII letters.  The code passes a `wchar_t`; for a value above 255 the
library does not fix the answer.  There this definition answers `false`, and
what is stated about the answer of `isalpha` for a given character is stated
for characters of the domain (`isalpha_defined`). -/
def isalpha (c : Char) : Bool := c.isAlpha

/-- The domain of the C library `isalpha`: values up to 255 (the calls are at
lines 102, 129 and 447). -/
def isalpha_defined (c : Char) : Bool := decide (c.toNat ≤ 255)

/-! ## Tokenizer states -/

/-- Modelled from the spec: the enum `HTMLParser::tokenizer_state` (declared in
the absent `HTMLParser.hpp`), with the members that `HTMLParser.cpp` names. -/
inductive tokenizer_state
  | data_state
  | char_ref_in_data_state
  | tag_open_state
  | end_tag_open_state
  | tag_name_state
  | self_closing_start_tag_state
  | before_attribute_name_state
  | attribute_name_state
  | after_attribute_name_state
  | before_attribute_value_state
  | attribute_value_double_quoted_state
  | attribute_value_single_quoted_state
  | attribute_value_unquoted_state
  | char_ref_in_attribute_value_state
  | after_attribute_value_quoted_state
  | bogus_comment_state
  | markup_declaration_open_state
  | doctype_state
  | before_doctype_name_state
  | doctype_name_state
  | after_doctype_name_state
  | bogus_doctype_state
  | comment_start_state
  | comment_start_dash_state
  | comment_state
  | comment_end_dash_state
  | comment_end_state
  | comment_end_bang_state
  deriving DecidableEq, Repr

open tokenizer_state

/-! ## Tokens and the token builder -/

/-- Modelled from the spec: the token variants of section 3 together with the
in-progress attribute of the token builder of section 4.2 (the token classes
live in the absent `tokens/*.hpp`).  `base` is the plain `HTMLToken` object
that `create_token_from_string` creates on entry. -/
inductive HTMLToken
  | base
  | start_tag (name : List Char) (attributes : List (List Char × List Char))
      (self_closing : Bool) (current : Option (List Char × List Char))
  | end_tag (name : List Char)
  | comment (data : List Char)
  | doctype (name : List Char) (name_set : Bool) (force_quirks : Bool)
  deriving DecidableEq, Repr

namespace HTMLToken

/-- Modelled from the spec: `StartToken(wchar_t)`, a start tag whose name is
the given letter, without attributes, not self-closing. -/
def new_start (c : Char) : HTMLToken := start_tag [c] [] false none

/-- Modelled from the spec: `EndToken(wchar_t)`, an end tag whose name is the
given letter. -/
def new_end (c : Char) : HTMLToken := end_tag [c]

/-- Modelled from the spec: `CommentToken()`, a comment without data. -/
def new_comment : HTMLToken := comment []

/-- Modelled from the spec: `DoctypeToken()`, a doctype with no name set and
force-quirks off. -/
def new_doctype : HTMLToken := doctype [] false false

/-- Modelled from the spec: append-to-name, scoped to the variants that have
a name (start tag, end tag, doctype). -/
def add_char_to_tag_name (t : HTMLToken) (c : Char) : HTMLToken :=
  match t with
  | start_tag n as sc cur => start_tag (n ++ [c]) as sc cur
  | end_tag n => end_tag (n ++ [c])
  | doctype n ns fq => doctype (n ++ [c]) ns fq
  | t => t

/-- Modelled from the spec: start/append-current-attribute-name; only a start
tag carries attributes. -/
def add_to_current_attribute_name (t : HTMLToken) (c : Char) : HTMLToken :=
  match t with
  | start_tag n as sc none => start_tag n as sc (some ([c], []))
  | start_tag n as sc (some (an, av)) => start_tag n as sc (some (an ++ [c], av))
  | t => t

/-- Modelled from the spec: start/append-current-attribute-value. -/
def add_to_current_attribute_value (t : HTMLToken) (c : Char) : HTMLToken :=
  match t with
  | start_tag n as sc none => start_tag n as sc (some ([], [c]))
  | start_tag n as sc (some (an, av)) => start_tag n as sc (some (an, av ++ [c]))
  | t => t

/-- Modelled from the spec: finalize the pending (name, value) pair into the
attribute sequence, insertion order preserved; with no pending attribute it is
a no-op. -/
def process_current_attribute (t : HTMLToken) : HTMLToken :=
  match t with
  | start_tag n as sc (some p) => start_tag n (as ++ [p]) sc none
  | t => t

/-- Modelled from the spec: set-self-closing, scoped to the start tag. -/
def set_self_closing (t : HTMLToken) (b : Bool) : HTMLToken :=
  match t with
  | start_tag n as _ cur => start_tag n as b cur
  | t => t

/-- Modelled from the spec: set-force-quirks, scoped to the doctype. -/
def set_quirks_required (t : HTMLToken) (b : Bool) : HTMLToken :=
  match t with
  | doctype n ns _ => doctype n ns b
  | t => t

/-- Modelled from the spec: set-name-present, scoped to the doctype. -/
def set_is_name_set (t : HTMLToken) (b : Bool) : HTMLToken :=
  match t with
  | doctype n _ fq => doctype n b fq
  | t => t

/-- Modelled from the spec: append-to-comment-data, scoped to the comment. -/
def add_char_to_data (t : HTMLToken) (c : Char) : HTMLToken :=
  match t with
  | comment d => comment (d ++ [c])
  | t => t

end HTMLToken

/-! ## Case-insensitive search -/

/-- Two characters are equal up to ASCII case. -/
def ieq (a b : Char) : Bool := a.toLower == b.toLower

/-- The pattern `p` matches at the head of `s`, up to ASCII case. -/
def imatch_here : List Char → List Char → Bool
  | [], _ => true
  | _ :: _, [] => false
  | p :: ps, c :: cs => ieq p c && imatch_here ps cs

/-- Position of the first match of `substr` in `s` up to ASCII case, counted
from `i`; `-1` when there is none. -/
def iposition_from (substr : List Char) : List Char → Nat → Int
  | [], i => if substr.isEmpty then (i : Int) else -1
  | c :: cs, i =>
    if imatch_here substr (c :: cs) then (i : Int) else iposition_from substr cs (i + 1)

/-- Modelled from the spec: `get_wstring_iposition` is declared in
`HTMLParser.cpp` and defined elsewhere; it is the case-insensitive substring
search of section 4.4, giving the position of the first occurrence or `-1`. -/
def get_wstring_iposition (long_str substr : List Char) : Int :=
  iposition_from substr long_str 0

/-! ## The tokenizer loop -/

/-- How one pass through the body of the `for` loop ends: with a
`return token;`, at the `break` (the loop then increments the iterator, which
the body itself may have moved forward by `skip` positions first), or at the
`break` after an `it--` (the same character is looked at again). -/
inductive Step
  | ret (token : HTMLToken) (state : tokenizer_state)
  | next (token : HTMLToken) (state : tokenizer_state) (skip : Nat)
  | reconsume (token : HTMLToken) (state : tokenizer_state)
  deriving DecidableEq, Repr

/-- The `switch (state)` of `create_token_from_string` for one character:
`next_char` is `*it` and `rest` the characters after it.  A window
`std::wstring(it, it + k)` that reaches past the end of the string is read as
the characters that are there (the terminator never matches). -/
def body (state : tokenizer_state) (token : HTMLToken) (next_char : Char)
    (rest : List Char) : Step :=
  match state with
  | data_state =>
    if next_char = '&' then .next token char_ref_in_data_state 0
    else if next_char = '<' then .next token tag_open_state 0
    else .next token state 0
  | tag_open_state =>
    if next_char = '!' then .next token markup_declaration_open_state 0
    else if next_char = '/' then .next token end_tag_open_state 0
    else if isalpha next_char then .next (HTMLToken.new_start next_char) tag_name_state 0
    else if next_char = '?' then .next token bogus_comment_state 0
    else .next token state 0
  | tag_name_state =>
    if is_space next_char then .next token before_attribute_name_state 0
    else if next_char = '/' then .next token self_closing_start_tag_state 0
    else if next_char = '>' then .ret token data_state
    else if isalpha next_char then .next (token.add_char_to_tag_name next_char) state 0
    else .next (token.add_char_to_tag_name next_char) state 0
  | char_ref_in_data_state => .next token state 0
  | self_closing_start_tag_state =>
    if next_char = '>' then .ret (token.set_self_closing true) data_state
    else .next token state 0
  | before_attribute_name_state =>
    if is_space next_char then .next token state 0
    else if next_char = '/' then .next token self_closing_start_tag_state 0
    else if next_char = '>' then .ret token data_state
    else .next (token.add_to_current_attribute_name next_char) attribute_name_state 0
  | attribute_name_state =>
    if is_space next_char then .next token after_attribute_name_state 0
    else if next_char = '/' then .next token self_closing_start_tag_state 0
    else if next_char = '=' then .next token before_attribute_value_state 0
    else .next (token.add_to_current_attribute_name next_char) state 0
  | after_attribute_name_state =>
    if is_space next_char then .next token state 0
    else
      let state1 := if next_char = '/' then self_closing_start_tag_state else state
      let state2 := if next_char = '=' then before_attribute_value_state else state1
      .next token state2 0
  | before_attribute_value_state =>
    if is_space next_char then .next token state 0
    else if next_char = '"' then .next token attribute_value_double_quoted_state 0
    else if next_char = '&' then .next token attribute_value_unquoted_state 0
    else if next_char = '\'' then .next token attribute_value_single_quoted_state 0
    else if next_char = '>' then .ret token data_state
    else .next (token.add_to_current_attribute_name next_char) attribute_value_unquoted_state 0
  | attribute_value_double_quoted_state =>
    if next_char = '"' then .next token after_attribute_value_quoted_state 0
    else if next_char = '&' then .next token char_ref_in_attribute_value_state 0
    else .next (token.add_to_current_attribute_value next_char) state 0
  | attribute_value_single_quoted_state =>
    if next_char = '\'' then .next token after_attribute_value_quoted_state 0
    else if next_char = '&' then .next token char_ref_in_attribute_value_state 0
    else .next (token.add_to_current_attribute_value next_char) state 0
  | attribute_value_unquoted_state =>
    if is_space next_char then .next token before_attribute_value_state 0
    else if next_char = '&' then .next token char_ref_in_attribute_value_state 0
    else if next_char = '>' then .ret token data_state
    else .next (token.add_to_current_attribute_value next_char) state 0
  | after_attribute_value_quoted_state =>
    let token1 := token.process_current_attribute
    if is_space next_char then .next token1 before_attribute_name_state 0
    else if next_char = '/' then .next token1 self_closing_start_tag_state 0
    else if next_char = '>' then .ret token1 data_state
    else .next token1 state 0
  | bogus_comment_state => .next token state 0
  | markup_declaration_open_state =>
    -- `std::wstring(it, it + 2) == L"--"`, then `it += 1`
    let dashes := (next_char :: rest).take 2 = ['-', '-']
    let token1 := if dashes then HTMLToken.new_comment else token
    let state1 := if dashes then comment_start_state else state
    let skip1 := if dashes then 1 else 0
    -- `next_seven_chars(it, it + 7)` is taken after that move of `it`
    let next_seven_chars := ((next_char :: rest).drop skip1).take 7
    if get_wstring_iposition next_seven_chars ['d', 'o', 'c', 't', 'y', 'p', 'e'] = 0 then
      .next token1 doctype_state (skip1 + 6)
    else .next token1 state1 skip1
  | doctype_state =>
    if is_space next_char then .next token before_doctype_name_state 0
    else .reconsume token before_doctype_name_state
  | before_doctype_name_state =>
    if is_space next_char then .next token state 0
    else
      let token1 := HTMLToken.new_doctype
      if next_char = '>' then .ret (token1.set_quirks_required true) data_state
      else .next (token1.add_char_to_tag_name next_char) doctype_name_state 0
  | doctype_name_state =>
    if is_space next_char then .next (token.set_is_name_set true) after_doctype_name_state 0
    else if next_char = '>' then .ret (token.set_is_name_set true) data_state
    else .next (token.add_char_to_tag_name next_char) state 0
  | after_doctype_name_state =>
    if is_space next_char then .next token state 0
    else .next (token.set_quirks_required true) bogus_doctype_state 0
  | bogus_doctype_state =>
    if next_char = '>' then .ret token data_state
    else .next token state 0
  | end_tag_open_state =>
    if isalpha next_char then .next (HTMLToken.new_end next_char) tag_name_state 0
    else .next token state 0
  | comment_start_state =>
    if next_char = '-' then .next token comment_start_dash_state 0
    else if next_char = '>' then .ret token data_state
    else .next (token.add_char_to_data next_char) comment_state 0
  | comment_start_dash_state =>
    if next_char = '-' then .next token comment_end_state 0
    else if next_char = '>' then .ret token data_state
    else .next ((token.add_char_to_data '-').add_char_to_data next_char) comment_state 0
  | comment_state =>
    if next_char = '-' then .next token comment_end_dash_state 0
    else .next (token.add_char_to_data next_char) state 0
  | comment_end_dash_state =>
    if next_char = '-' then .next token comment_end_state 0
    else .next ((token.add_char_to_data '-').add_char_to_data next_char) comment_state 0
  | comment_end_state =>
    if next_char = '>' then .ret token data_state
    else if next_char = '!' then .next token comment_end_bang_state 0
    else if next_char = '-' then .next (token.add_char_to_data next_char) state 0
    else
      .next (((token.add_char_to_data '-').add_char_to_data '-').add_char_to_data next_char)
        comment_state 0
  | comment_end_bang_state =>
    if next_char = '-' then
      .next (((token.add_char_to_data '-').add_char_to_data '-').add_char_to_data '!')
        comment_end_dash_state 0
    else if next_char = '>' then .ret token data_state
    else
      .next ((((token.add_char_to_data '-').add_char_to_data '-').add_char_to_data '!').add_char_to_data
        next_char) comment_state 0
  -- `default: break;`
  | char_ref_in_attribute_value_state => .next token state 0

/-- What a call hands back: the returned token, the value left in the `state`
reference, and whether the `return token;` that ran was one inside the loop
(`true`) or the one after it (`false`, the string was used up). -/
structure Outcome where
  token : HTMLToken
  state : tokenizer_state
  in_loop : Bool
  deriving DecidableEq, Repr

/-- The `for` loop over the string, `input` being the characters from `it` on.
After an `it--` the increment of the loop brings the iterator back to the same
character, also when that character is the first one of the string.
Every pass uses one unit of `fuel`; `none` means the fuel ran out. -/
def tokenize_loop : Nat → tokenizer_state → HTMLToken → List Char → Option Outcome
  | 0, _, _, _ => none
  | _ + 1, state, token, [] => some ⟨token, state, false⟩
  | fuel + 1, state, token, next_char :: rest =>
    match body state token next_char rest with
    | .ret token1 state1 => some ⟨token1, state1, true⟩
    | .next token1 state1 skip => tokenize_loop fuel state1 token1 (rest.drop skip)
    | .reconsume token1 state1 => tokenize_loop fuel state1 token1 (next_char :: rest)

/-- The loop started at `state` with `token` in hand, with fuel for two passes
per character, which is more than the loop can make (a character is looked at
twice only when `doctype_state` steps back). -/
def tokenize_from (state : tokenizer_state) (token : HTMLToken) (input : List Char) :
    Option Outcome :=
  tokenize_loop (2 * input.length + 2) state token input

/-- `HTMLParser::create_token_from_string(html_string, state)`: a fresh base
token, then the loop. -/
def create_token_from_string (html_string : List Char) (state : tokenizer_state) :
    Option Outcome :=
  tokenize_from state HTMLToken.base html_string

/-- The number of passes the loop can still make is bounded by this. -/
def passes_bound (state : tokenizer_state) (input : List Char) : Nat :=
  2 * input.length + (if state = doctype_state then 1 else 0)

/-! ## Input shapes -/

/-- A character that `tag_name_state` appends to the name: not whitespace, not
`/`, not `>`. -/
def is_name_char (c : Char) : Bool := !is_space c && c != '/' && c != '>'

/-- A well-formed tag name: an ASCII letter followed by characters
that are not whitespace, `/` or `>`. -/
def is_tag_name : List Char → Bool
  | [] => false
  | c :: cs => isalpha c && cs.all is_name_char

/-- A plain attribute name: non-empty, ASCII letters only. -/
def is_attr_name (a : List Char) : Bool := !a.isEmpty && a.all isalpha

/-- Appending a run of characters to the name of a token. -/
def add_name (t : HTMLToken) (cs : List Char) : HTMLToken :=
  cs.foldl HTMLToken.add_char_to_tag_name t

/-- The attribute sequence a token carries; only a start tag has one. -/
def attributes_of : HTMLToken → List (List Char × List Char)
  | .start_tag _ as _ _ => as
  | _ => []

/-- The word `doctype` in some mix of upper and lower case. -/
def is_doctype_word (k : List Char) : Bool :=
  k.map Char.toLower == ['d', 'o', 'c', 't', 'y', 'p', 'e']

/-- A doctype name: non-empty, without whitespace and
without `>`. -/
def is_doctype_name (n : List Char) : Bool :=
  !n.isEmpty && n.all (fun c => !is_space c && c != '>')

/-- The characters a comment state has read but not yet put into the comment
data: nothing in `comment_state`, `-` in `comment_end_dash_state`, `--` in
`comment_end_state`, `--!` in `comment_end_bang_state`. -/
def held_back : tokenizer_state → Option (List Char)
  | comment_state => some []
  | comment_end_dash_state => some ['-']
  | comment_end_state => some ['-', '-']
  | comment_end_bang_state => some ['-', '-', '!']
  | _ => none

/-- The text contains neither `-->` nor `--!>`. -/
def no_comment_end (d : List Char) : Prop :=
  ¬ (['-', '-', '>'] <:+: d) ∧ ¬ (['-', '-', '!', '>'] <:+: d)

instance (d : List Char) : Decidable (no_comment_end d) := by
  unfold no_comment_end; infer_instance

/-! ## The document validity pre-check -/

/-- The value `std::wstring::npos` for a 64-bit `size_t`. -/
def npos : Nat := 2 ^ 64 - 1

/-- The pattern `p` is at the head of `s`. -/
def match_here : List Char → List Char → Bool
  | [], _ => true
  | _ :: _, [] => false
  | p :: ps, c :: cs => p == c && match_here ps cs

/-- Position of the first occurrence of `pat`, counted from `i`, or `npos`. -/
def find_from (pat : List Char) : List Char → Nat → Nat
  | [], i => if pat.isEmpty then i else npos
  | c :: cs, i => if match_here pat (c :: cs) then i else find_from pat cs (i + 1)

/-- `std::wstring::find(pat)`: position of the first occurrence of `pat`, or
`npos`. -/
def wfind (s pat : List Char) : Nat := find_from pat s 0

/-- The class `\s` of the regular expression, taken as the ASCII white space
characters. -/
def regex_space (c : Char) : Bool :=
  c == ' ' || c == '\t' || c == '\n' || c == '\x0b' || c == '\x0c' || c == '\r'

/-- The regular expression `<html\s+.*>|<html>` matches at the head of `s`:
either `<html>` is there, or `<html`, a white space character and, somewhere
after it, a `>` (the dot of this regex library also matches line ends). -/
def root_open_here (s : List Char) : Bool :=
  match_here ['<', 'h', 't', 'm', 'l', '>'] s ||
    (match_here ['<', 'h', 't', 'm', 'l'] s &&
      match s.drop 5 with
      | [] => false
      | c :: t => regex_space c && t.contains '>')

/-- `HTMLParser::contains_doctype`. -/
def contains_doctype (html_string : List Char) : Bool :=
  decide (get_wstring_iposition html_string "<!DOCTYPE".toList ≠ -1)

/-- `HTMLParser::contains_root_open`: `regex_search` looks for a match of
`<html\s+.*>|<html>` starting anywhere in the string. -/
def contains_root_open (html_string : List Char) : Bool :=
  html_string.tails.any root_open_here

/-- `HTMLParser::contains_root_close`. -/
def contains_root_close (html_string : List Char) : Bool :=
  decide (wfind html_string "</html>".toList ≠ npos)

/-- `HTMLParser::contains_root_open_before_close`. -/
def contains_root_open_before_close (html_string : List Char) : Bool :=
  decide (wfind html_string "<html".toList < wfind html_string "</html>".toList)

/-- `HTMLParser::contains_root_element`. -/
def contains_root_element (html_string : List Char) : Bool :=
  contains_root_open html_string && contains_root_close html_string &&
    contains_root_open_before_close html_string

/-- `HTMLParser::doctype_before_root`: a comparison of two `int` positions,
either of which is `-1` when the marker is absent. -/
def doctype_before_root (html_string : List Char) : Bool :=
  decide (get_wstring_iposition html_string "<!DOCTYPE".toList <
    get_wstring_iposition html_string "<html".toList)

/-- `HTMLParser::is_valid_html_string`. -/
def is_valid_html_string (html_string : List Char) : Bool :=
  contains_doctype html_string && contains_root_element html_string &&
    doctype_before_root html_string

/-- The pattern occurs in `s` at position `i`, up to ASCII case. -/
def ioccurs (pat s : List Char) (i : Nat) : Bool :=
  decide (i ≤ s.length) && imatch_here pat (s.drop i)

/-- Position `i` is the first one at which the pattern occurs in `s`, up to
ASCII case. -/
def first_ioccurrence (pat s : List Char) (i : Nat) : Prop :=
  ioccurs pat s i = true ∧ ∀ j, j < i → ioccurs pat s j = false

instance (pat s : List Char) (i : Nat) : Decidable (first_ioccurrence pat s i) := by
  unfold first_ioccurrence; infer_instance

/-! ## Tokens in progress -/

/-- The token is the plain base object, no token has been begun. -/
def HTMLToken.is_base : HTMLToken → Bool
  | .base => true
  | _ => false

/-- The states in which a call started in `data_state` has not begun a token
yet. -/
def no_token_state : tokenizer_state → Bool
  | data_state => true
  | char_ref_in_data_state => true
  | tag_open_state => true
  | end_tag_open_state => true
  | markup_declaration_open_state => true
  | bogus_comment_state => true
  | doctype_state => true
  | before_doctype_name_state => true
  | _ => false

/-- A root open tag (`<html>`, or `<html`, white space and a later `>`) starts
at some position before the position of some close tag `</html>`. -/
def root_open_before_a_close (s : List Char) : Bool :=
  (List.range (s.length + 1)).any fun j =>
    match_here "</html>".toList (s.drop j) &&
      (List.range j).any fun i => root_open_here (s.drop i)

/-- An unquoted attribute value made of ASCII letters and digits, non-empty. -/
def is_unquoted_value (v : List Char) : Bool := !v.isEmpty && v.all Char.isAlphanum

/-- The force-quirks flag of a doctype token (`false` for any other token). -/
def force_quirks_of : HTMLToken → Bool
  | .doctype _ _ fq => fq
  | _ => false

/-- The states a doctype token goes through once its name has been started. -/
def doctype_tail_state : tokenizer_state → Bool
  | doctype_name_state => true
  | after_doctype_name_state => true
  | bogus_doctype_state => true
  | _ => false

/-- The two look-ahead windows of `markup_declaration_open_state` at the head
of `u` give the same answers whether or not `b` follows `u`. -/
def windows_unchanged (u b : List Char) : Bool :=
  (decide ((u ++ b).take 2 = ['-', '-']) == decide (u.take 2 = ['-', '-'])) &&
    (decide (get_wstring_iposition ((u ++ b).take 7) ['d', 'o', 'c', 't', 'y', 'p', 'e'] = 0) ==
      decide (get_wstring_iposition (u.take 7) ['d', 'o', 'c', 't', 'y', 'p', 'e'] = 0))

/-- No look-ahead window that starts within `a` changes its answer when `b` is
appended to `a`. -/
def cut_keeps_windows (a b : List Char) : Bool :=
  a.tails.all fun u => u.isEmpty || windows_unchanged u b

/-- What a pass decides apart from the token: the kind of exit, the state and
the move of the iterator. -/
def Step.without_token : Step → Step
  | .ret _ s => .ret .base s
  | .next _ s k => .next .base s k
  | .reconsume _ s => .reconsume .base s

/-! # Theorems -/

/-! ## Basic facts about the loop -/

theorem body_reconsume {st : tokenizer_state} {tok : HTMLToken} {c : Char} {rest : List Char}
    {t : HTMLToken} {s : tokenizer_state} (h : body st tok c rest = .reconsume t s) :
    st = doctype_state ∧ s = before_doctype_name_state ∧ t = tok := by
  cases st <;> simp only [body] at h <;> (try split_ifs at h) <;> simp_all

theorem tokenize_loop_fuel (f1 : Nat) :
    ∀ (f2 : Nat) (st : tokenizer_state) (tok : HTMLToken) (inp : List Char),
      passes_bound st inp < f1 → passes_bound st inp < f2 →
      tokenize_loop f1 st tok inp = tokenize_loop f2 st tok inp := by
  induction f1 with
  | zero => intro f2 st tok inp h1; omega
  | succ f1 ih =>
    intro f2 st tok inp h1 h2
    cases f2 with
    | zero => omega
    | succ f2 =>
      cases inp with
      | nil => simp [tokenize_loop]
      | cons c rest =>
        simp only [tokenize_loop]
        cases hb : body st tok c rest with
        | ret t s => rfl
        | next t s k =>
          have hlen : (rest.drop k).length ≤ rest.length := by simp
          have hb1 : passes_bound s (rest.drop k) ≤ 2 * rest.length + 1 := by
            unfold passes_bound; split_ifs <;> omega
          have hb2 : 2 * rest.length + 2 ≤ passes_bound st (c :: rest) := by
            unfold passes_bound; simp only [List.length_cons]; split_ifs <;> omega
          exact ih f2 s t (rest.drop k) (by omega) (by omega)
        | reconsume t s =>
          obtain ⟨h3, h4, -⟩ := body_reconsume hb
          subst h3 h4
          have hb1 : passes_bound before_doctype_name_state (c :: rest)
              < passes_bound doctype_state (c :: rest) := by
            simp [passes_bound]
          exact ih f2 _ t (c :: rest) (by omega) (by omega)

theorem passes_bound_lt (st : tokenizer_state) (inp : List Char) :
    passes_bound st inp < 2 * inp.length + 2 := by
  unfold passes_bound; split_ifs <;> omega

theorem tokenize_from_nil (st : tokenizer_state) (tok : HTMLToken) :
    tokenize_from st tok [] = some ⟨tok, st, false⟩ := rfl

theorem tokenize_from_cons (st : tokenizer_state) (tok : HTMLToken) (c : Char)
    (rest : List Char) :
    tokenize_from st tok (c :: rest) =
      match body st tok c rest with
      | .ret t s => some ⟨t, s, true⟩
      | .next t s k => tokenize_from s t (rest.drop k)
      | .reconsume t s => tokenize_from s t (c :: rest) := by
  unfold tokenize_from
  simp only [List.length_cons, Nat.mul_add, Nat.mul_one, tokenize_loop]
  cases hb : body st tok c rest with
  | ret t s => rfl
  | next t s k =>
    have hlen : (rest.drop k).length ≤ rest.length := by simp
    have h1 := passes_bound_lt s (rest.drop k)
    exact tokenize_loop_fuel _ _ s t _ (by omega) h1
  | reconsume t s =>
    obtain ⟨h3, h4, -⟩ := body_reconsume hb
    subst h3 h4
    have h1 : passes_bound before_doctype_name_state (c :: rest) = 2 * rest.length + 2 := by
      simp [passes_bound]; ring
    simp only
    refine tokenize_loop_fuel (2 * rest.length + 2 + 1) (2 * (rest.length + 1) + 2)
      before_doctype_name_state t (c :: rest) (by omega) (by omega)

/-- The loop always hands back a result: the fuel of `tokenize_from` never runs out. -/
theorem tokenize_from_isSome (st : tokenizer_state) (tok : HTMLToken) (inp : List Char) :
    (tokenize_from st tok inp).isSome = true := by
  generalize hn : passes_bound st inp = n
  induction n using Nat.strong_induction_on generalizing st tok inp with
  | _ n ih =>
    cases inp with
    | nil => simp [tokenize_from_nil]
    | cons c rest =>
      rw [tokenize_from_cons]
      cases hb : body st tok c rest with
      | ret t s => rfl
      | next t s k =>
        have hlen : (rest.drop k).length ≤ rest.length := by simp
        refine ih _ ?_ s t _ rfl
        subst hn
        unfold passes_bound; simp only [List.length_cons]; split_ifs <;> omega
      | reconsume t s =>
        obtain ⟨h3, h4, -⟩ := body_reconsume hb
        subst h3 h4
        refine ih _ ?_ _ t _ rfl
        subst hn
        simp [passes_bound]

/-! ## Runs of characters that a state absorbs -/

theorem is_space_iff (c : Char) :
    is_space c = true ↔ c = '\t' ∨ c = '\n' ∨ c = '\x0c' ∨ c = ' ' := by
  simp [is_space, space_chars]

theorem isalpha_not_space {c : Char} (h : isalpha c = true) : is_space c = false := by
  cases hs : is_space c with
  | false => rfl
  | true =>
    rcases (is_space_iff c).1 hs with rfl | rfl | rfl | rfl <;> simp [isalpha] at h

theorem isalpha_ne_of_not {c d : Char} (h : isalpha c = true) (hd : isalpha d = false) :
    c ≠ d := by
  rintro rfl
  rw [h] at hd
  exact Bool.noConfusion hd

theorem is_name_char_iff (c : Char) :
    is_name_char c = true ↔ is_space c = false ∧ c ≠ '/' ∧ c ≠ '>' := by
  simp [is_name_char, and_assoc]

theorem add_name_start (n : List Char) (as : List (List Char × List Char)) (sc : Bool)
    (cur : Option (List Char × List Char)) (cs : List Char) :
    add_name (.start_tag n as sc cur) cs = .start_tag (n ++ cs) as sc cur := by
  induction cs generalizing n with
  | nil => simp [add_name]
  | cons c cs ih =>
    have := ih (n ++ [c])
    simp only [add_name, List.foldl_cons, HTMLToken.add_char_to_tag_name] at this ⊢
    simpa using this

theorem add_name_end (n cs : List Char) :
    add_name (.end_tag n) cs = .end_tag (n ++ cs) := by
  induction cs generalizing n with
  | nil => simp [add_name]
  | cons c cs ih =>
    have := ih (n ++ [c])
    simp only [add_name, List.foldl_cons, HTMLToken.add_char_to_tag_name] at this ⊢
    simpa using this

theorem add_name_doctype (n : List Char) (ns fq : Bool) (cs : List Char) :
    add_name (.doctype n ns fq) cs = .doctype (n ++ cs) ns fq := by
  induction cs generalizing n with
  | nil => simp [add_name]
  | cons c cs ih =>
    have := ih (n ++ [c])
    simp only [add_name, List.foldl_cons, HTMLToken.add_char_to_tag_name] at this ⊢
    simpa using this

/-- In `tag_name_state` a run of name characters is appended to the tag name. -/
theorem tag_name_run (cs : List Char) (hcs : cs.all is_name_char = true) (tok : HTMLToken)
    (rest : List Char) :
    tokenize_from tag_name_state tok (cs ++ rest) =
      tokenize_from tag_name_state (add_name tok cs) rest := by
  induction cs generalizing tok with
  | nil => rfl
  | cons c cs ih =>
    simp only [List.all_cons, Bool.and_eq_true] at hcs
    obtain ⟨h1, h2, h3⟩ := (is_name_char_iff c).1 hcs.1
    rw [List.cons_append, tokenize_from_cons]
    simp only [body, h1, h2, h3, if_false, ite_self, List.drop_zero, Bool.false_eq_true]
    exact ih hcs.2 _

/-- In `attribute_name_state` a run of characters that are not whitespace, `/`
or `=` is appended to the pending attribute name. -/
theorem attribute_name_run (cs : List Char)
    (hcs : ∀ c ∈ cs, is_space c = false ∧ c ≠ '/' ∧ c ≠ '=') (n : List Char)
    (as : List (List Char × List Char)) (sc : Bool) (an av rest : List Char) :
    tokenize_from attribute_name_state (.start_tag n as sc (some (an, av))) (cs ++ rest) =
      tokenize_from attribute_name_state (.start_tag n as sc (some (an ++ cs, av))) rest := by
  induction cs generalizing an with
  | nil => simp
  | cons c cs ih =>
    obtain ⟨h1, h2, h3⟩ := hcs c (List.mem_cons_self _ _)
    rw [List.cons_append, tokenize_from_cons]
    simp only [body, h1, h2, h3, if_false, List.drop_zero, Bool.false_eq_true,
      HTMLToken.add_to_current_attribute_name]
    rw [ih (fun d hd => hcs d (List.mem_cons_of_mem _ hd))]
    simp

/-- In `attribute_value_double_quoted_state` a run of characters other than
`"` and `&` is appended to the pending attribute value. -/
theorem double_quoted_run (cs : List Char) (hq : '"' ∉ cs) (hamp : '&' ∉ cs) (n : List Char)
    (as : List (List Char × List Char)) (sc : Bool) (an av rest : List Char) :
    tokenize_from attribute_value_double_quoted_state (.start_tag n as sc (some (an, av)))
        (cs ++ rest) =
      tokenize_from attribute_value_double_quoted_state
        (.start_tag n as sc (some (an, av ++ cs))) rest := by
  induction cs generalizing av with
  | nil => simp
  | cons c cs ih =>
    simp only [List.mem_cons, not_or] at hq hamp
    have h1 : c ≠ '"' := fun h => hq.1 h.symm
    have h2 : c ≠ '&' := fun h => hamp.1 h.symm
    rw [List.cons_append, tokenize_from_cons]
    simp only [body, h1, h2, if_false, List.drop_zero, HTMLToken.add_to_current_attribute_value]
    rw [ih hq.2 hamp.2]
    simp

/-! ## C1: a start tag with one double-quoted attribute -/

/-- C1. For a tag name `n` (an ASCII letter, then no whitespace, `/` or `>`), an
attribute name `a` (non-empty, ASCII letters) and a value `v` without `"` and
`&`, the call from `data_state` on `<n a="v">` returns, from inside the loop,
the start tag named `n` with attribute sequence `[(a, v)]`, not self-closing,
and leaves the state at `data_state`. -/
theorem start_tag_quoted_attribute (n a v : List Char) (hn : is_tag_name n = true)
    (ha : is_attr_name a = true) (hq : '"' ∉ v) (hamp : '&' ∉ v) :
    create_token_from_string (['<'] ++ n ++ [' '] ++ a ++ ['=', '"'] ++ v ++ ['"', '>'])
        data_state =
      some ⟨.start_tag n [(a, v)] false none, data_state, true⟩ := by
  cases n with
  | nil => simp [is_tag_name] at hn
  | cons c0 n =>
    cases a with
    | nil => simp [is_attr_name] at ha
    | cons a0 a =>
      simp only [is_tag_name, Bool.and_eq_true] at hn
      simp only [is_attr_name, List.isEmpty_cons, Bool.not_false, Bool.true_and, List.all_cons,
        Bool.and_eq_true, List.all_eq_true] at ha
      have hs0 := isalpha_not_space ha.1
      have hne1 : a0 ≠ '/' := isalpha_ne_of_not ha.1 (by decide)
      have hne2 : a0 ≠ '>' := isalpha_ne_of_not ha.1 (by decide)
      have hrun : ∀ c ∈ a, is_space c = false ∧ c ≠ '/' ∧ c ≠ '=' := fun c hc =>
        ⟨isalpha_not_space (ha.2 c hc), isalpha_ne_of_not (ha.2 c hc) (by decide),
          isalpha_ne_of_not (ha.2 c hc) (by decide)⟩
      unfold create_token_from_string
      simp only [List.cons_append, List.nil_append, List.append_assoc]
      rw [tokenize_from_cons]
      simp only [body, Char.reduceEq, reduceIte, List.drop_zero]
      rw [tokenize_from_cons]
      simp only [body, hn.1, isalpha_ne_of_not hn.1 (show isalpha '!' = false by decide),
        isalpha_ne_of_not hn.1 (show isalpha '/' = false by decide), reduceIte, List.drop_zero,
        HTMLToken.new_start]
      rw [tag_name_run n hn.2, add_name_start, tokenize_from_cons]
      simp only [body, show is_space ' ' = true by decide, reduceIte, List.drop_zero]
      rw [tokenize_from_cons]
      simp only [body, hs0, hne1, hne2, reduceIte, List.drop_zero, Bool.false_eq_true,
        HTMLToken.add_to_current_attribute_name]
      rw [attribute_name_run a hrun, tokenize_from_cons]
      simp only [body, show is_space '=' = false by decide, Char.reduceEq, reduceIte,
        List.drop_zero, Bool.false_eq_true]
      rw [tokenize_from_cons]
      simp only [body, show is_space '"' = false by decide, reduceIte,
        List.drop_zero, Bool.false_eq_true]
      rw [double_quoted_run v hq hamp, tokenize_from_cons]
      simp only [body, reduceIte, List.drop_zero]
      rw [tokenize_from_cons]
      simp [body, HTMLToken.process_current_attribute, show is_space '>' = false by decide]

/-- C1 at `<div class="x y">`. -/
theorem start_tag_quoted_attribute_witness :
    create_token_from_string
        (['<'] ++ "div".toList ++ [' '] ++ "class".toList ++ ['=', '"'] ++ "x y".toList ++
          ['"', '>']) data_state =
      some ⟨.start_tag "div".toList [("class".toList, "x y".toList)] false none, data_state,
        true⟩ :=
  start_tag_quoted_attribute "div".toList "class".toList "x y".toList (by decide) (by decide)
    (by decide) (by decide)

/-! ## C6 and C7: end tags, plain and self-closing start tags -/

/-- From `data_state`, `<` and a tag name lead to `tag_name_state` holding a
start tag of that name. -/
theorem open_start_tag (n : List Char) (hn : is_tag_name n = true) (rest : List Char) :
    tokenize_from data_state .base ('<' :: (n ++ rest)) =
      tokenize_from tag_name_state (.start_tag n [] false none) rest := by
  cases n with
  | nil => simp [is_tag_name] at hn
  | cons c0 n =>
    simp only [is_tag_name, Bool.and_eq_true] at hn
    rw [tokenize_from_cons]
    simp only [body, Char.reduceEq, reduceIte, List.drop_zero]
    rw [List.cons_append, tokenize_from_cons]
    simp only [body, hn.1, isalpha_ne_of_not hn.1 (show isalpha '!' = false by decide),
      isalpha_ne_of_not hn.1 (show isalpha '/' = false by decide), reduceIte, List.drop_zero,
      HTMLToken.new_start]
    rw [tag_name_run n hn.2, add_name_start]
    simp

/-- From `data_state`, `</` and a tag name lead to `tag_name_state` holding an
end tag of that name. -/
theorem open_end_tag (n : List Char) (hn : is_tag_name n = true) (rest : List Char) :
    tokenize_from data_state .base ('<' :: '/' :: (n ++ rest)) =
      tokenize_from tag_name_state (.end_tag n) rest := by
  cases n with
  | nil => simp [is_tag_name] at hn
  | cons c0 n =>
    simp only [is_tag_name, Bool.and_eq_true] at hn
    rw [tokenize_from_cons]
    simp only [body, Char.reduceEq, reduceIte, List.drop_zero]
    rw [tokenize_from_cons]
    simp only [body, Char.reduceEq, reduceIte, List.drop_zero]
    rw [List.cons_append, tokenize_from_cons]
    simp only [body, hn.1, reduceIte, List.drop_zero, HTMLToken.new_end]
    rw [tag_name_run n hn.2, add_name_end]
    simp

/-- C6. For a tag name `n` (an ASCII letter, then no whitespace, `/` or `>`)
the call from `data_state` on `</n>` returns, from inside the loop, the end tag
named `n`, which carries no attribute, and leaves the state at `data_state`;
`</p>` gives the end tag `p`. -/
theorem end_tag_emitted (n : List Char) (hn : is_tag_name n = true) :
    create_token_from_string (['<', '/'] ++ n ++ ['>']) data_state =
        some ⟨.end_tag n, data_state, true⟩ ∧
      attributes_of (.end_tag n) = [] ∧
      create_token_from_string ['<', '/', 'p', '>'] data_state =
        some ⟨.end_tag ['p'], data_state, true⟩ := by
  refine ⟨?_, rfl, by decide⟩
  unfold create_token_from_string
  simp only [List.cons_append, List.nil_append, List.append_assoc]
  rw [open_end_tag n hn, tokenize_from_cons]
  simp [body, show is_space '>' = false by decide]

/-- C6 at `</table>`. -/
theorem end_tag_emitted_witness :
    create_token_from_string (['<', '/'] ++ "table".toList ++ ['>']) data_state =
        some ⟨.end_tag "table".toList, data_state, true⟩ ∧
      attributes_of (.end_tag "table".toList) = [] ∧
      create_token_from_string ['<', '/', 'p', '>'] data_state =
        some ⟨.end_tag ['p'], data_state, true⟩ :=
  end_tag_emitted "table".toList (by decide)

/-- C7. For a tag name `n` the call from `data_state` on `<n/>` returns the
start tag `n` without attributes and with `self_closing = true`, and on `<n>`
the start tag `n` without attributes and with `self_closing = false`; both
return from inside the loop with the state at `data_state`.  `<br/>` gives the
self-closing start tag `br`. -/
theorem start_tag_self_closing (n : List Char) (hn : is_tag_name n = true) :
    create_token_from_string (['<'] ++ n ++ ['/', '>']) data_state =
        some ⟨.start_tag n [] true none, data_state, true⟩ ∧
      create_token_from_string (['<'] ++ n ++ ['>']) data_state =
        some ⟨.start_tag n [] false none, data_state, true⟩ ∧
      create_token_from_string ['<', 'b', 'r', '/', '>'] data_state =
        some ⟨.start_tag ['b', 'r'] [] true none, data_state, true⟩ := by
  refine ⟨?_, ?_, by decide⟩
  · unfold create_token_from_string
    simp only [List.cons_append, List.nil_append, List.append_assoc]
    rw [open_start_tag n hn, tokenize_from_cons]
    simp only [body, show is_space '/' = false by decide, Char.reduceEq, reduceIte,
      List.drop_zero, Bool.false_eq_true]
    rw [tokenize_from_cons]
    simp [body, HTMLToken.set_self_closing]
  · unfold create_token_from_string
    simp only [List.cons_append, List.nil_append, List.append_assoc]
    rw [open_start_tag n hn, tokenize_from_cons]
    simp [body, show is_space '>' = false by decide]

/-- C7 at `<img/>` and `<img>`. -/
theorem start_tag_self_closing_witness :
    create_token_from_string (['<'] ++ "img".toList ++ ['/', '>']) data_state =
        some ⟨.start_tag "img".toList [] true none, data_state, true⟩ ∧
      create_token_from_string (['<'] ++ "img".toList ++ ['>']) data_state =
        some ⟨.start_tag "img".toList [] false none, data_state, true⟩ ∧
      create_token_from_string ['<', 'b', 'r', '/', '>'] data_state =
        some ⟨.start_tag ['b', 'r'] [] true none, data_state, true⟩ :=
  start_tag_self_closing "img".toList (by decide)

/-! ## C4 and C5: doctype tokens -/

/-- In `markup_declaration_open_state`, a spelling of `doctype` is matched by
the seven-character window: the word is consumed and the state becomes
`doctype_state`. -/
theorem markup_doctype_word (k : List Char) (hk : is_doctype_word k = true) (tok : HTMLToken)
    (rest : List Char) :
    tokenize_from markup_declaration_open_state tok (k ++ rest) =
      tokenize_from doctype_state tok rest := by
  simp only [is_doctype_word, beq_iff_eq] at hk
  rcases k with _ | ⟨k0, _ | ⟨k1, _ | ⟨k2, _ | ⟨k3, _ | ⟨k4, _ | ⟨k5, _ | ⟨k6, _ | ⟨k7, k⟩⟩⟩⟩⟩⟩⟩⟩ <;>
    simp only [List.map_cons, List.map_nil, List.cons.injEq, and_true, and_false,
      reduceCtorEq] at hk
  obtain ⟨h0, h1, h2, h3, h4, h5, h6⟩ := hk
  have hd : k0 ≠ '-' := by
    rintro rfl
    exact absurd h0 (by decide)
  rw [List.cons_append, tokenize_from_cons]
  have hwin : List.take 7 (k0 :: ([k1, k2, k3, k4, k5, k6] ++ rest)) =
      [k0, k1, k2, k3, k4, k5, k6] := by simp
  have hpos : get_wstring_iposition [k0, k1, k2, k3, k4, k5, k6]
      ['d', 'o', 'c', 't', 'y', 'p', 'e'] = 0 := by
    have e0 : ('d' : Char).toLower = 'd' := by decide
    have e1 : ('o' : Char).toLower = 'o' := by decide
    have e2 : ('c' : Char).toLower = 'c' := by decide
    have e3 : ('t' : Char).toLower = 't' := by decide
    have e4 : ('y' : Char).toLower = 'y' := by decide
    have e5 : ('p' : Char).toLower = 'p' := by decide
    have e6 : ('e' : Char).toLower = 'e' := by decide
    simp [get_wstring_iposition, iposition_from, imatch_here, ieq, h0, h1, h2, h3, h4, h5, h6,
      e0, e1, e2, e3, e4, e5, e6]
  have hdash : ¬ (List.take 2 (k0 :: ([k1, k2, k3, k4, k5, k6] ++ rest)) = ['-', '-']) := by
    simp [hd]
  simp only [body, hdash, reduceIte, List.drop_zero, hwin, hpos, Nat.zero_add]
  simp

/-- In `before_doctype_name_state` whitespace is skipped. -/
theorem before_doctype_name_skip (w : List Char) (hw : w.all is_space = true)
    (tok : HTMLToken) (rest : List Char) :
    tokenize_from before_doctype_name_state tok (w ++ rest) =
      tokenize_from before_doctype_name_state tok rest := by
  induction w with
  | nil => rfl
  | cons c w ih =>
    simp only [List.all_cons, Bool.and_eq_true] at hw
    rw [List.cons_append, tokenize_from_cons]
    simp only [body, hw.1, reduceIte, List.drop_zero]
    exact ih hw.2

/-- After the word `doctype`, a possibly empty run of whitespace followed by a
character that is not whitespace leads to `before_doctype_name_state` at that
character. -/
theorem doctype_skip (w : List Char) (hw : w.all is_space = true) (tok : HTMLToken)
    (c : Char) (hc : is_space c = false) (rest : List Char) :
    tokenize_from doctype_state tok (w ++ c :: rest) =
      tokenize_from before_doctype_name_state tok (c :: rest) := by
  cases w with
  | nil =>
    rw [List.nil_append, tokenize_from_cons]
    simp only [body, hc, reduceIte, Bool.false_eq_true]
  | cons d w =>
    simp only [List.all_cons, Bool.and_eq_true] at hw
    rw [List.cons_append, tokenize_from_cons]
    simp only [body, hw.1, reduceIte, List.drop_zero]
    exact before_doctype_name_skip w hw.2 tok _

/-- In `doctype_name_state` a run of characters that are neither whitespace
nor `>` is appended to the doctype name. -/
theorem doctype_name_run (cs : List Char)
    (hcs : cs.all (fun c => !is_space c && c != '>') = true) (tok : HTMLToken)
    (rest : List Char) :
    tokenize_from doctype_name_state tok (cs ++ rest) =
      tokenize_from doctype_name_state (add_name tok cs) rest := by
  induction cs generalizing tok with
  | nil => rfl
  | cons c cs ih =>
    simp only [List.all_cons, Bool.and_eq_true, Bool.not_eq_true', bne_iff_ne, ne_eq] at hcs
    rw [List.cons_append, tokenize_from_cons]
    simp only [body, hcs.1.1, hcs.1.2, reduceIte, List.drop_zero, Bool.false_eq_true]
    exact ih hcs.2 _

/-- C4. For a spelling `k` of `doctype` in any mix of case, a possibly empty
whitespace run `w` and a non-empty name `n` without whitespace and `>`, the
call from `data_state` on `<!` `k` `w` `n` `>` returns, from inside the loop, the
doctype token with name `n`, name-set flag true and force-quirks flag false,
and leaves the state at `data_state`; `<!DOCTYPE html>` gives the name `html`
without force-quirks. -/
theorem doctype_named (k w n : List Char) (hk : is_doctype_word k = true)
    (hw : w.all is_space = true) (hn : is_doctype_name n = true) :
    create_token_from_string (['<', '!'] ++ k ++ w ++ n ++ ['>']) data_state =
        some ⟨.doctype n true false, data_state, true⟩ ∧
      create_token_from_string "<!DOCTYPE html>".toList data_state =
        some ⟨.doctype "html".toList true false, data_state, true⟩ := by
  refine ⟨?_, by decide⟩
  cases n with
  | nil => simp [is_doctype_name] at hn
  | cons c n =>
    simp only [is_doctype_name, List.isEmpty_cons, Bool.not_false, Bool.true_and, List.all_cons,
      Bool.and_eq_true, Bool.not_eq_true', bne_iff_ne, ne_eq] at hn
    unfold create_token_from_string
    simp only [List.cons_append, List.nil_append, List.append_assoc]
    rw [tokenize_from_cons]
    simp only [body, Char.reduceEq, reduceIte, List.drop_zero]
    rw [tokenize_from_cons]
    simp only [body, Char.reduceEq, reduceIte, List.drop_zero]
    rw [markup_doctype_word k hk, doctype_skip w hw _ c hn.1.1, tokenize_from_cons]
    simp only [body, hn.1.1, hn.1.2, reduceIte, List.drop_zero, Bool.false_eq_true,
      HTMLToken.new_doctype, HTMLToken.add_char_to_tag_name]
    rw [doctype_name_run n (by simpa using hn.2), add_name_doctype, tokenize_from_cons]
    simp [body, HTMLToken.set_is_name_set, show is_space '>' = false by decide]

/-- C4 at `<!DocType` tab space `svg:root>`. -/
theorem doctype_named_witness :
    create_token_from_string
        (['<', '!'] ++ "DocType".toList ++ ['\t', ' '] ++ "svg:root".toList ++ ['>'])
        data_state =
        some ⟨.doctype "svg:root".toList true false, data_state, true⟩ ∧
      create_token_from_string "<!DOCTYPE html>".toList data_state =
        some ⟨.doctype "html".toList true false, data_state, true⟩ :=
  doctype_named "DocType".toList ['\t', ' '] "svg:root".toList (by decide) (by decide)
    (by decide)

/-- C5. For a possibly empty whitespace run `w`, the call from `data_state` on
`<!DOCTYPE` `w` `>` returns, from inside the loop at that `>`, the doctype token
with force-quirks true, empty name and name-set flag false, and leaves the
state at `data_state`. -/
theorem doctype_without_name (w : List Char) (hw : w.all is_space = true) :
    create_token_from_string ("<!DOCTYPE".toList ++ w ++ ['>']) data_state =
      some ⟨.doctype [] false true, data_state, true⟩ := by
  unfold create_token_from_string
  have hs : "<!DOCTYPE".toList = '<' :: '!' :: "DOCTYPE".toList := by decide
  rw [hs]
  simp only [List.cons_append, List.append_assoc]
  rw [tokenize_from_cons]
  simp only [body, Char.reduceEq, reduceIte, List.drop_zero]
  rw [tokenize_from_cons]
  simp only [body, Char.reduceEq, reduceIte, List.drop_zero]
  rw [markup_doctype_word _ (by decide), doctype_skip w hw _ '>' (by decide), tokenize_from_cons]
  simp [body, HTMLToken.set_quirks_required, HTMLToken.new_doctype,
    show is_space '>' = false by decide]

/-- C5 at `<!DOCTYPE`, space, line feed, `>`. -/
theorem doctype_without_name_witness :
    create_token_from_string ("<!DOCTYPE".toList ++ [' ', '\n'] ++ ['>']) data_state =
      some ⟨.doctype [] false true, data_state, true⟩ :=
  doctype_without_name [' ', '\n'] (by decide)

/-! ## C3: comments keep their dashes -/

theorem no_comment_end_drop (pre y : List Char) (h : no_comment_end (pre ++ y)) :
    no_comment_end y :=
  ⟨fun h1 => h.1 (h1.trans (List.suffix_append pre y).isInfix),
    fun h1 => h.2 (h1.trans (List.suffix_append pre y).isInfix)⟩

/-- The comment states from `comment_state` on: when the characters held back
by the state followed by the unread input are `y` and the closing `-->`, with
neither `-->` nor `--!>` inside `y`, the loop returns the comment whose data is
what was collected before, followed by `y`. -/
theorem comment_scan (r : List Char) :
    ∀ (st : tokenizer_state) (p x y : List Char), held_back st = some p →
      p ++ r = y ++ ['-', '-', '>'] → no_comment_end y →
      tokenize_from st (.comment x) r = some ⟨.comment (x ++ y), data_state, true⟩ := by
  induction r with
  | nil =>
    intro st p x y hp h hy
    have hl := congrArg List.length h
    cases st <;> simp only [held_back, Option.some.injEq, reduceCtorEq] at hp <;> subst hp <;>
      simp at hl
    · subst y; simp at h
  | cons c r ih =>
    intro st p x y hp h hy
    cases st <;> simp only [held_back, Option.some.injEq, reduceCtorEq] at hp <;> subst hp
    · -- comment_state
      rw [tokenize_from_cons]
      by_cases hc : c = '-'
      · subst hc
        simp only [body, reduceIte, List.drop_zero]
        exact ih comment_end_dash_state ['-'] x y rfl (by simpa using h) hy
      · rcases y with _ | ⟨a, y⟩
        · simp at h; exact absurd h.1 hc
        · simp only [List.nil_append, List.cons_append, List.cons.injEq] at h
          obtain ⟨rfl, h⟩ := h
          simp only [body, hc, reduceIte, List.drop_zero, HTMLToken.add_char_to_data]
          rw [ih comment_state [] (x ++ [c]) y rfl (by simpa using h)
            (no_comment_end_drop [c] y hy)]
          simp
    · -- comment_end_dash_state
      rw [tokenize_from_cons]
      by_cases hc : c = '-'
      · subst hc
        simp only [body, reduceIte, List.drop_zero]
        exact ih comment_end_state ['-', '-'] x y rfl (by simpa using h) hy
      · rcases y with _ | ⟨a, _ | ⟨b, y⟩⟩
        · simp at h; exact absurd h.1 hc
        · simp at h; exact absurd h.2.1 hc
        · simp only [List.cons_append, List.nil_append, List.cons.injEq] at h
          obtain ⟨rfl, rfl, h⟩ := h
          simp only [body, hc, reduceIte, List.drop_zero, HTMLToken.add_char_to_data]
          rw [ih comment_state [] (x ++ ['-'] ++ [c]) y rfl (by simpa using h)
            (no_comment_end_drop ['-', c] y hy)]
          simp
    · -- comment_end_state
      rw [tokenize_from_cons]
      by_cases hgt : c = '>'
      · subst hgt
        rcases y with _ | ⟨a, _ | ⟨b, _ | ⟨e, y⟩⟩⟩
        · simp [body]
        · simp at h
        · simp at h
        · simp only [List.cons_append, List.nil_append, List.cons.injEq] at h
          obtain ⟨rfl, rfl, rfl, -⟩ := h
          exact absurd (List.prefix_append ['-', '-', '>'] y).isInfix hy.1
      · by_cases hbang : c = '!'
        · subst hbang
          simp only [body, Char.reduceEq, reduceIte, List.drop_zero]
          exact ih comment_end_bang_state ['-', '-', '!'] x y rfl (by simpa using h) hy
        · by_cases hc : c = '-'
          · subst hc
            rcases y with _ | ⟨a, y⟩
            · simp at h
            · simp only [List.cons_append, List.nil_append, List.cons.injEq] at h
              obtain ⟨rfl, h⟩ := h
              simp only [body, Char.reduceEq, reduceIte, List.drop_zero,
                HTMLToken.add_char_to_data]
              rw [ih comment_end_state ['-', '-'] (x ++ ['-']) y rfl (by simpa using h)
                (no_comment_end_drop ['-'] y hy)]
              simp
          · rcases y with _ | ⟨a, _ | ⟨b, _ | ⟨e, y⟩⟩⟩
            · simp at h; exact absurd h.1 hgt
            · simp at h; exact absurd h.2.1 hc
            · simp at h; exact absurd h.2.2.1 hc
            · simp only [List.cons_append, List.nil_append, List.cons.injEq] at h
              obtain ⟨rfl, rfl, rfl, h⟩ := h
              simp only [body, hgt, hbang, hc, reduceIte, List.drop_zero,
                HTMLToken.add_char_to_data]
              rw [ih comment_state [] (x ++ ['-'] ++ ['-'] ++ [c]) y rfl (by simpa using h)
                (no_comment_end_drop ['-', '-', c] y hy)]
              simp
    · -- comment_end_bang_state
      rw [tokenize_from_cons]
      rcases y with _ | ⟨a, _ | ⟨b, _ | ⟨e, y⟩⟩⟩
      · simp at h
      · simp at h
      · simp at h
      · simp only [List.cons_append, List.nil_append, List.cons.injEq] at h
        obtain ⟨rfl, rfl, rfl, h⟩ := h
        have hy3 := no_comment_end_drop ['-', '-', '!'] y hy
        by_cases hc : c = '-'
        · subst hc
          simp only [body, reduceIte, List.drop_zero, HTMLToken.add_char_to_data]
          rw [ih comment_end_dash_state ['-'] (x ++ ['-'] ++ ['-'] ++ ['!']) y rfl
            (by simpa using h) hy3]
          simp
        · rcases y with _ | ⟨a, y⟩
          · simp at h; exact absurd h.1 hc
          · simp only [List.cons_append, List.nil_append, List.cons.injEq] at h
            obtain ⟨rfl, h⟩ := h
            by_cases hgt : c = '>'
            · subst hgt
              exact absurd (List.prefix_append ['-', '-', '!', '>'] y).isInfix hy.2
            · simp only [body, hc, hgt, reduceIte, List.drop_zero, HTMLToken.add_char_to_data]
              rw [ih comment_state [] (x ++ ['-'] ++ ['-'] ++ ['!'] ++ [c]) y rfl
                (by simpa using h) (no_comment_end_drop [c] y hy3)]
              simp

theorem iposition_from_pos (substr s : List Char) (i : Nat) (hi : 0 < i) :
    iposition_from substr s i ≠ 0 := by
  induction s generalizing i with
  | nil => simp only [iposition_from]; split_ifs <;> omega
  | cons c s ih =>
    simp only [iposition_from]
    split_ifs
    · omega
    · exact ih (i + 1) (by omega)

/-- A window that starts with `-` does not start with the word `doctype`. -/
theorem window_after_dashes (s : List Char) :
    get_wstring_iposition ('-' :: s) ['d', 'o', 'c', 't', 'y', 'p', 'e'] ≠ 0 := by
  have h : imatch_here ['d', 'o', 'c', 't', 'y', 'p', 'e'] ('-' :: s) = false := by
    simp [imatch_here, ieq]
  simp only [get_wstring_iposition, iposition_from, h, Bool.false_eq_true, reduceIte]
  exact iposition_from_pos _ _ _ (by omega)

/-- C3. For a text `d` that contains neither `-->` nor `--!>` and begins
neither with `>` nor with `->`, the call from `data_state` on `<!--` `d` `-->`
returns, from inside the loop, the comment whose data is exactly `d`, and
leaves the state at `data_state`; `<!-- a -- b -->` gives the data ` a -- b `. -/
theorem comment_dash_tolerance (d : List Char) (hd : no_comment_end d)
    (h1 : ¬ (['>'] <+: d)) (h2 : ¬ (['-', '>'] <+: d)) :
    create_token_from_string ("<!--".toList ++ d ++ "-->".toList) data_state =
        some ⟨.comment d, data_state, true⟩ ∧
      create_token_from_string "<!-- a -- b -->".toList data_state =
        some ⟨.comment " a -- b ".toList, data_state, true⟩ := by
  refine ⟨?_, by decide⟩
  unfold create_token_from_string
  have hs : "<!--".toList = ['<', '!', '-', '-'] := by decide
  have he : "-->".toList = ['-', '-', '>'] := by decide
  rw [hs, he]
  simp only [List.cons_append, List.nil_append, List.append_assoc]
  rw [tokenize_from_cons]
  simp only [body, Char.reduceEq, reduceIte, List.drop_zero]
  rw [tokenize_from_cons]
  simp only [body, Char.reduceEq, reduceIte, List.drop_zero]
  rw [tokenize_from_cons]
  simp only [body, List.take_succ_cons, List.take_zero, reduceIte, List.drop_succ_cons,
    List.drop_zero, window_after_dashes, HTMLToken.new_comment]
  rcases d with _ | ⟨c, d⟩
  · decide
  · rw [List.cons_append, tokenize_from_cons]
    by_cases hc : c = '-'
    · subst hc
      simp only [body, reduceIte, List.drop_zero]
      rcases d with _ | ⟨c2, d⟩
      · decide
      · rw [List.cons_append, tokenize_from_cons]
        by_cases hc2 : c2 = '-'
        · subst hc2
          simp only [body, reduceIte, List.drop_zero]
          exact comment_scan _ comment_end_state ['-', '-'] [] ('-' :: '-' :: d) rfl
            (by simp) hd
        · have hgt : c2 ≠ '>' := by
            rintro rfl
            exact h2 (List.prefix_append ['-', '>'] d)
          simp only [body, hc2, hgt, reduceIte, List.drop_zero, HTMLToken.add_char_to_data]
          rw [comment_scan _ comment_state [] _ d rfl (by simp)
            (no_comment_end_drop ['-', c2] d hd)]
          simp
    · have hgt : c ≠ '>' := by
        rintro rfl
        exact h1 (List.prefix_append ['>'] d)
      simp only [body, hc, hgt, reduceIte, List.drop_zero, HTMLToken.add_char_to_data]
      rw [comment_scan _ comment_state [] _ d rfl (by simp) (no_comment_end_drop [c] d hd)]
      simp

/-- C3 at the text `-x--!y-`. -/
theorem comment_dash_tolerance_witness :
    create_token_from_string ("<!--".toList ++ "-x--!y-".toList ++ "-->".toList) data_state =
        some ⟨.comment "-x--!y-".toList, data_state, true⟩ ∧
      create_token_from_string "<!-- a -- b -->".toList data_state =
        some ⟨.comment " a -- b ".toList, data_state, true⟩ :=
  comment_dash_tolerance "-x--!y-".toList (by decide) (by decide) (by decide)

/-! ## C8: the validity pre-check and the order of doctype and root -/

theorem ioccurs_cons_succ (pat : List Char) (c : Char) (s : List Char) (i : Nat) :
    ioccurs pat (c :: s) (i + 1) = ioccurs pat s i := by
  simp [ioccurs]

/-- The search gives the position of the first occurrence. -/
theorem iposition_from_first (pat s : List Char) :
    ∀ (i k : Nat), first_ioccurrence pat s i → iposition_from pat s k = ((k + i : Nat) : Int) := by
  induction s with
  | nil =>
    intro i k ⟨h1, _⟩
    simp only [ioccurs, List.length_nil, Nat.le_zero_eq, List.drop_nil, Bool.and_eq_true,
      decide_eq_true_eq] at h1
    obtain ⟨rfl, h1⟩ := h1
    cases pat with
    | nil => simp [iposition_from]
    | cons p ps => simp [imatch_here] at h1
  | cons c s ih =>
    intro i k ⟨h1, h2⟩
    simp only [iposition_from]
    by_cases hm : imatch_here pat (c :: s) = true
    · have hi : i = 0 := by
        by_contra hne
        have := h2 0 (Nat.pos_of_ne_zero hne)
        simp [ioccurs, hm] at this
      subst hi
      simp [hm]
    · cases i with
      | zero => simp [ioccurs] at h1; exact absurd h1 hm
      | succ i =>
        simp only [hm, Bool.false_eq_true, reduceIte]
        rw [ih i (k + 1) ⟨by rwa [ioccurs_cons_succ] at h1, fun j hj => by
          have := h2 (j + 1) (by omega)
          rwa [ioccurs_cons_succ] at this⟩]
        congr 1
        omega

/-- Without an occurrence the search gives `-1`. -/
theorem iposition_from_none (pat s : List Char) :
    ∀ (k : Nat), (∀ i, ioccurs pat s i = false) → iposition_from pat s k = -1 := by
  induction s with
  | nil =>
    intro k h
    have h0 := h 0
    cases pat with
    | nil => simp [ioccurs, imatch_here] at h0
    | cons p ps => simp [iposition_from]
  | cons c s ih =>
    intro k h
    have h0 := h 0
    simp only [ioccurs, Nat.zero_le, decide_True, List.drop_zero, Bool.true_and] at h0
    simp only [iposition_from, h0, Bool.false_eq_true, reduceIte]
    exact ih (k + 1) (fun i => by
      have := h (i + 1)
      rwa [ioccurs_cons_succ] at this)

/-- C8. `is_valid_html_string` is true on `<!DOCTYPE html><html></html>`; it
is false on every document whose first occurrence of `<html` (up to case) comes
before its first occurrence of `<!DOCTYPE` (up to case), and on every document
without an occurrence of `<!DOCTYPE` (up to case); it is false on
`<html></html><!DOCTYPE html>`. -/
theorem is_valid_html_string_doctype_order :
    is_valid_html_string "<!DOCTYPE html><html></html>".toList = true ∧
      (∀ (d : List Char) (i j : Nat), first_ioccurrence "<html".toList d i →
        first_ioccurrence "<!DOCTYPE".toList d j → i < j →
        is_valid_html_string d = false) ∧
      (∀ d : List Char, (∀ i, ioccurs "<!DOCTYPE".toList d i = false) →
        is_valid_html_string d = false) ∧
      is_valid_html_string "<html></html><!DOCTYPE html>".toList = false := by
  refine ⟨by decide, ?_, ?_, by decide⟩
  · intro d i j hi hj hij
    have h1 := iposition_from_first _ d i 0 hi
    have h2 := iposition_from_first _ d j 0 hj
    have h3 : doctype_before_root d = false := by
      simp only [doctype_before_root, get_wstring_iposition, h1, h2, decide_eq_false_iff_not]
      omega
    simp [is_valid_html_string, h3]
  · intro d h
    have h3 : contains_doctype d = false := by
      simp only [contains_doctype, get_wstring_iposition, iposition_from_none _ d 0 h]
      decide
    simp [is_valid_html_string, h3]

/-- C8 at `<html><!doctype html></html>` (root first) and at `<html></html>`
(no doctype). -/
theorem is_valid_html_string_doctype_order_witness :
    is_valid_html_string "<html><!doctype html></html>".toList = false ∧
      is_valid_html_string "<html></html>".toList = false :=
  ⟨is_valid_html_string_doctype_order.2.1 "<html><!doctype html></html>".toList 0 6
      (by decide) (by decide) (by decide),
    is_valid_html_string_doctype_order.2.2.1 "<html></html>".toList (by
      intro i
      by_cases hi : i ≤ 13
      · interval_cases i <;> decide
      · simp [ioccurs]
        intro h
        exact absurd h hi)⟩

/-! ## Which token is in hand in which state -/

@[simp] theorem is_base_add_char_to_tag_name (t : HTMLToken) (c : Char) :
    (t.add_char_to_tag_name c).is_base = t.is_base := by
  cases t <;> rfl

@[simp] theorem is_base_add_to_current_attribute_name (t : HTMLToken) (c : Char) :
    (t.add_to_current_attribute_name c).is_base = t.is_base := by
  unfold HTMLToken.add_to_current_attribute_name
  split <;> rfl

@[simp] theorem is_base_add_to_current_attribute_value (t : HTMLToken) (c : Char) :
    (t.add_to_current_attribute_value c).is_base = t.is_base := by
  unfold HTMLToken.add_to_current_attribute_value
  split <;> rfl

@[simp] theorem is_base_process_current_attribute (t : HTMLToken) :
    t.process_current_attribute.is_base = t.is_base := by
  unfold HTMLToken.process_current_attribute
  split <;> rfl

@[simp] theorem is_base_set_self_closing (t : HTMLToken) (b : Bool) :
    (t.set_self_closing b).is_base = t.is_base := by
  cases t <;> rfl

@[simp] theorem is_base_set_quirks_required (t : HTMLToken) (b : Bool) :
    (t.set_quirks_required b).is_base = t.is_base := by
  cases t <;> rfl

@[simp] theorem is_base_set_is_name_set (t : HTMLToken) (b : Bool) :
    (t.set_is_name_set b).is_base = t.is_base := by
  cases t <;> rfl

@[simp] theorem is_base_add_char_to_data (t : HTMLToken) (c : Char) :
    (t.add_char_to_data c).is_base = t.is_base := by
  cases t <;> rfl

@[simp] theorem is_base_new_start (c : Char) : (HTMLToken.new_start c).is_base = false := rfl

@[simp] theorem is_base_new_end (c : Char) : (HTMLToken.new_end c).is_base = false := rfl

@[simp] theorem is_base_new_comment : HTMLToken.new_comment.is_base = false := rfl

@[simp] theorem is_base_new_doctype : HTMLToken.new_doctype.is_base = false := rfl

theorem is_base_iff (t : HTMLToken) : t.is_base = true ↔ t = .base := by
  cases t <;> simp [HTMLToken.is_base]

/-- The pass in `markup_declaration_open_state` by cases: the two-character
window is `--`, or else the seven-character window spells `doctype`, or else
nothing changes (the `doctype` test after a `--` match always fails). -/
theorem body_markup (tok : HTMLToken) (c : Char) (rest : List Char) :
    body markup_declaration_open_state tok c rest =
      if (c :: rest).take 2 = ['-', '-'] then .next HTMLToken.new_comment comment_start_state 1
      else if get_wstring_iposition ((c :: rest).take 7) ['d', 'o', 'c', 't', 'y', 'p', 'e'] = 0
        then .next tok doctype_state 6
      else .next tok markup_declaration_open_state 0 := by
  by_cases hd : (c :: rest).take 2 = ['-', '-']
  · have hw : get_wstring_iposition (((c :: rest).drop 1).take 7)
        ['d', 'o', 'c', 't', 'y', 'p', 'e'] ≠ 0 := by
      cases rest with
      | nil => simp at hd
      | cons r rest =>
        simp only [List.take_succ_cons, List.take_zero, List.cons.injEq, and_true] at hd
        obtain ⟨-, rfl⟩ := hd
        simpa using window_after_dashes (rest.take 6)
    simp only [body, hd, reduceIte, hw]
  · simp only [body, hd, reduceIte, List.drop_zero, Nat.zero_add]

/-- One pass keeps the link between state and token: the base token is in hand
exactly in the states of `no_token_state`, and a `return` inside the loop
never hands back the base token. -/
theorem body_token_state (st : tokenizer_state) (tok : HTMLToken) (c : Char)
    (rest : List Char) (h : tok.is_base = no_token_state st) :
    match body st tok c rest with
    | .ret t _ => t.is_base = false
    | .next t s _ => t.is_base = no_token_state s
    | .reconsume t s => t.is_base = no_token_state s := by
  by_cases hst : st = markup_declaration_open_state
  · subst hst
    rw [body_markup]
    split_ifs <;> simp_all [no_token_state]
  · cases st <;> simp only [body] <;> (try split_ifs) <;> simp_all [no_token_state]

/-- Once a token has been begun, the base token does not come back. -/
theorem body_keeps_token (st : tokenizer_state) (tok : HTMLToken) (c : Char)
    (rest : List Char) (h : tok.is_base = false) :
    match body st tok c rest with
    | .ret t _ => t.is_base = false
    | .next t _ _ => t.is_base = false
    | .reconsume t _ => t.is_base = false := by
  by_cases hst : st = markup_declaration_open_state
  · subst hst
    rw [body_markup]
    split_ifs <;> simp_all
  · cases st <;> simp only [body] <;> (try split_ifs) <;> simp_all

theorem loop_token_state (f : Nat) :
    ∀ (st : tokenizer_state) (tok : HTMLToken) (inp : List Char) (o : Outcome),
      tok.is_base = no_token_state st → tokenize_loop f st tok inp = some o →
      o.token.is_base = (!o.in_loop && no_token_state o.state) := by
  induction f with
  | zero => intro st tok inp o _ h; simp [tokenize_loop] at h
  | succ f ih =>
    intro st tok inp o hinv h
    cases inp with
    | nil =>
      simp only [tokenize_loop, Option.some.injEq] at h
      subst h
      simpa using hinv
    | cons c rest =>
      have hb := body_token_state st tok c rest hinv
      simp only [tokenize_loop] at h
      cases hbody : body st tok c rest with
      | ret t s =>
        rw [hbody] at h hb
        simp only [Option.some.injEq] at h
        subst h
        simpa using hb
      | next t s k =>
        rw [hbody] at h hb
        exact ih s t _ o hb h
      | reconsume t s =>
        rw [hbody] at h hb
        exact ih s t _ o hb h

theorem loop_keeps_token (f : Nat) :
    ∀ (st : tokenizer_state) (tok : HTMLToken) (inp : List Char) (o : Outcome),
      tok.is_base = false → tokenize_loop f st tok inp = some o → o.token.is_base = false := by
  induction f with
  | zero => intro st tok inp o _ h; simp [tokenize_loop] at h
  | succ f ih =>
    intro st tok inp o hinv h
    cases inp with
    | nil =>
      simp only [tokenize_loop, Option.some.injEq] at h
      subst h
      exact hinv
    | cons c rest =>
      have hb := body_keeps_token st tok c rest hinv
      simp only [tokenize_loop] at h
      cases hbody : body st tok c rest with
      | ret t s =>
        rw [hbody] at h hb
        simp only [Option.some.injEq] at h
        subst h
        exact hb
      | next t s k =>
        rw [hbody] at h hb
        exact ih s t _ o hb h
      | reconsume t s =>
        rw [hbody] at h hb
        exact ih s t _ o hb h

/-! ## C9: what is returned when the input is used up -/

/-- C9 fails as stated: on `<di` and on `<a href="x` the input is used up
before a token completes, and the call returns the partially built start tag,
not the base token. -/
theorem partial_token_returned :
    create_token_from_string "<di".toList data_state =
        some ⟨.start_tag "di".toList [] false none, tag_name_state, false⟩ ∧
      create_token_from_string "<a href=\"x".toList data_state =
        some ⟨.start_tag "a".toList [] false (some ("href".toList, "x".toList)),
          attribute_value_double_quoted_state, false⟩ := by
  constructor <;> decide

/-- C9, amended. When a call from `data_state` uses up its input (it returns
from the statement after the loop), the token it returns is the one in hand at
that point: the base token exactly when the state it leaves is one in which no
token has been begun (`data_state`, `char_ref_in_data_state`, `tag_open_state`,
`end_tag_open_state`, `markup_declaration_open_state`, `bogus_comment_state`,
`doctype_state`, `before_doctype_name_state`), and otherwise a token that has
been begun.  Every call hands back a result. -/
theorem exhausted_returns_token_in_hand (s : List Char) (o : Outcome)
    (h : create_token_from_string s data_state = some o) (hx : o.in_loop = false) :
    (o.token = .base ↔ no_token_state o.state = true) ∧
      (create_token_from_string s data_state).isSome = true := by
  refine ⟨?_, tokenize_from_isSome _ _ _⟩
  have := loop_token_state _ data_state .base s o rfl h
  rw [hx] at this
  rw [← is_base_iff, this]
  simp

/-- C9 amended, at `<di` (a start tag in hand in `tag_name_state`). -/
theorem exhausted_returns_token_in_hand_witness :
    (HTMLToken.start_tag "di".toList [] false none = .base ↔
        no_token_state tag_name_state = true) ∧
      (create_token_from_string "<di".toList data_state).isSome = true :=
  exhausted_returns_token_in_hand "<di".toList
    ⟨.start_tag "di".toList [] false none, tag_name_state, false⟩ (by decide) rfl

/-! ## C10: end tags go through the attribute states -/

/-- C10 fails on the code: after `</`, a tag name and a white space character
the state is `before_attribute_name_state` with the end tag in hand, and on
`</p a="b">` the states `attribute_name_state`, `before_attribute_value_state`,
`attribute_value_double_quoted_state` and `after_attribute_value_quoted_state`
follow before the end tag is returned. -/
theorem end_tag_enters_attribute_states (n : List Char) (hn : is_tag_name n = true) :
    create_token_from_string (['<', '/'] ++ n ++ [' ']) data_state =
        some ⟨.end_tag n, before_attribute_name_state, false⟩ ∧
      create_token_from_string "</p ".toList data_state =
        some ⟨.end_tag ['p'], before_attribute_name_state, false⟩ ∧
      create_token_from_string "</p a".toList data_state =
        some ⟨.end_tag ['p'], attribute_name_state, false⟩ ∧
      create_token_from_string "</p a=".toList data_state =
        some ⟨.end_tag ['p'], before_attribute_value_state, false⟩ ∧
      create_token_from_string "</p a=\"".toList data_state =
        some ⟨.end_tag ['p'], attribute_value_double_quoted_state, false⟩ ∧
      create_token_from_string "</p a=\"b\"".toList data_state =
        some ⟨.end_tag ['p'], after_attribute_value_quoted_state, false⟩ ∧
      create_token_from_string "</p a=\"b\">".toList data_state =
        some ⟨.end_tag ['p'], data_state, true⟩ := by
  refine ⟨?_, by decide, by decide, by decide, by decide, by decide, by decide⟩
  unfold create_token_from_string
  simp only [List.cons_append, List.nil_append, List.append_assoc]
  rw [open_end_tag n hn, tokenize_from_cons]
  simp only [body, show is_space ' ' = true by decide, reduceIte, List.drop_zero]
  rfl

/-- C10 at `</div `. -/
theorem end_tag_enters_attribute_states_witness :
    create_token_from_string (['<', '/'] ++ "div".toList ++ [' ']) data_state =
      some ⟨.end_tag "div".toList, before_attribute_name_state, false⟩ :=
  (end_tag_enters_attribute_states "div".toList (by decide)).1

/-! ## C2: splitting the input into two calls -/

/-- C2 fails as stated.  Split `<a>` into `<a` and `>`: the first call leaves
`tag_name_state`, the second call starts from a fresh base token and returns
it at the `>`, while one call on `<a>` returns the start tag `a`.  Split
`<!-->` into `<!-` and `->`: the two-character window of
`markup_declaration_open_state` never sees `--`, while one call on `<!-->`
returns an empty comment. -/
theorem chunk_split_changes_result :
    (create_token_from_string "<a".toList data_state =
        some ⟨.start_tag ['a'] [] false none, tag_name_state, false⟩ ∧
      create_token_from_string ">".toList tag_name_state = some ⟨.base, data_state, true⟩ ∧
      create_token_from_string ("<a".toList ++ ">".toList) data_state =
        some ⟨.start_tag ['a'] [] false none, data_state, true⟩) ∧
    (create_token_from_string "<!-".toList data_state =
        some ⟨.base, markup_declaration_open_state, false⟩ ∧
      create_token_from_string "->".toList markup_declaration_open_state =
        some ⟨.base, markup_declaration_open_state, false⟩ ∧
      create_token_from_string ("<!-".toList ++ "->".toList) data_state =
        some ⟨.comment [], data_state, true⟩) := by
  refine ⟨⟨?_, ?_, ?_⟩, ?_, ?_, ?_⟩ <;> decide

/-- Outside `markup_declaration_open_state` a pass does not look at the
characters after the current one. -/
theorem body_rest_irrelevant (st : tokenizer_state) (tok : HTMLToken) (c : Char)
    (r1 r2 : List Char) (hst : st ≠ markup_declaration_open_state) :
    body st tok c r1 = body st tok c r2 := by
  cases st <;> first | rfl | exact absurd rfl hst

/-- Outside `markup_declaration_open_state` a pass does not move the iterator
forward itself. -/
theorem body_skip_zero (st : tokenizer_state) (tok : HTMLToken) (c : Char) (rest : List Char)
    (hst : st ≠ markup_declaration_open_state) (t : HTMLToken) (s : tokenizer_state) (k : Nat)
    (h : body st tok c rest = .next t s k) : k = 0 := by
  cases st <;> simp only [body] at h <;> (try split_ifs at h) <;>
    first
    | exact absurd rfl hst
    | (simp only [Step.next.injEq, reduceCtorEq] at h; exact h.2.2.symm)

/-- A window that starts with the word `doctype` has seven characters. -/
theorem window_length (w : List Char)
    (h : get_wstring_iposition w ['d', 'o', 'c', 't', 'y', 'p', 'e'] = 0) : 7 ≤ w.length := by
  have hm : imatch_here ['d', 'o', 'c', 't', 'y', 'p', 'e'] w = true := by
    cases w with
    | nil => simp [get_wstring_iposition, iposition_from] at h
    | cons c w =>
      by_contra hm
      simp only [get_wstring_iposition, iposition_from, hm, Bool.false_eq_true, reduceIte] at h
      exact iposition_from_pos _ _ _ (by omega) h
  rcases w with _ | ⟨_, _ | ⟨_, _ | ⟨_, _ | ⟨_, _ | ⟨_, _ | ⟨_, _ | ⟨_, w⟩⟩⟩⟩⟩⟩⟩ <;>
    simp [imatch_here] at hm ⊢

/-! ## C11 and C12: what a positive validity check tells -/

/-- C11 fails on the code: `is_valid_html_string` is true on
`<!DOCTYPE html><htmlx></html><html>`, where the only root open tag starts
after the only close tag; `contains_root_open_before_close` compares the
position of the text `<html` (here the head of `<htmlx>`) with that of
`</html>`.  On `<!DOCTYPE html><html></html>` the open tag does come first. -/
theorem valid_without_open_before_close :
    is_valid_html_string "<!DOCTYPE html><htmlx></html><html>".toList = true ∧
      root_open_before_a_close "<!DOCTYPE html><htmlx></html><html>".toList = false ∧
      wfind "<!DOCTYPE html><htmlx></html><html>".toList "<html".toList = 15 ∧
      wfind "<!DOCTYPE html><htmlx></html><html>".toList "</html>".toList = 22 ∧
      root_open_before_a_close "<!DOCTYPE html><html></html>".toList = true := by
  refine ⟨?_, ?_, ?_, ?_, ?_⟩ <;> decide

/-- C12 fails on the code: `<!DOCTYPE html><HTML></HTML>` is rejected while
`<!DOCTYPE html><html></html>` and `<!doctype html><html></html>` are accepted;
the doctype marker is searched up to case, the root tags are not. -/
theorem valid_depends_on_case :
    is_valid_html_string "<!DOCTYPE html><HTML></HTML>".toList = false ∧
      is_valid_html_string "<!DOCTYPE html><html></html>".toList = true ∧
      is_valid_html_string "<!doctype html><html></html>".toList = true ∧
      contains_root_open "<!DOCTYPE html><HTML></HTML>".toList = false ∧
      doctype_before_root "<!DOCTYPE html><HTML></HTML>".toList = true := by
  refine ⟨?_, ?_, ?_, ?_, ?_⟩ <;> decide

/-! ## C13: unquoted attribute values -/

theorem alnum_not_space {c : Char} (h : c.isAlphanum = true) : is_space c = false := by
  cases hs : is_space c with
  | false => rfl
  | true =>
    rcases (is_space_iff c).1 hs with rfl | rfl | rfl | rfl <;> exact absurd h (by decide)

theorem alnum_ne_of_not {c d : Char} (h : c.isAlphanum = true) (hd : d.isAlphanum = false) :
    c ≠ d := by
  rintro rfl
  rw [h] at hd
  exact Bool.noConfusion hd

/-- From `data_state`, `<`, a tag name, a space, an attribute name and `=` lead
to `before_attribute_value_state` with the attribute name pending. -/
theorem open_attribute (n a : List Char) (hn : is_tag_name n = true)
    (ha : is_attr_name a = true) (rest : List Char) :
    tokenize_from data_state .base ('<' :: (n ++ ' ' :: (a ++ '=' :: rest))) =
      tokenize_from before_attribute_value_state (.start_tag n [] false (some (a, []))) rest := by
  cases a with
  | nil => simp [is_attr_name] at ha
  | cons a0 a =>
    simp only [is_attr_name, List.isEmpty_cons, Bool.not_false, Bool.true_and, List.all_cons,
      Bool.and_eq_true, List.all_eq_true] at ha
    have hs0 := isalpha_not_space ha.1
    have hne1 : a0 ≠ '/' := isalpha_ne_of_not ha.1 (by decide)
    have hne2 : a0 ≠ '>' := isalpha_ne_of_not ha.1 (by decide)
    have hrun : ∀ c ∈ a, is_space c = false ∧ c ≠ '/' ∧ c ≠ '=' := fun c hc =>
      ⟨isalpha_not_space (ha.2 c hc), isalpha_ne_of_not (ha.2 c hc) (by decide),
        isalpha_ne_of_not (ha.2 c hc) (by decide)⟩
    rw [open_start_tag n hn, tokenize_from_cons]
    simp only [body, show is_space ' ' = true by decide, reduceIte, List.drop_zero]
    rw [List.cons_append, tokenize_from_cons]
    simp only [body, hs0, hne1, hne2, reduceIte, List.drop_zero, Bool.false_eq_true,
      HTMLToken.add_to_current_attribute_name]
    rw [attribute_name_run a hrun, tokenize_from_cons]
    simp only [body, show is_space '=' = false by decide, Char.reduceEq, reduceIte,
      List.drop_zero, Bool.false_eq_true, List.singleton_append]

/-- In `attribute_value_unquoted_state` a run of letters and digits is appended
to the pending attribute value. -/
theorem unquoted_run (cs : List Char) (hcs : cs.all Char.isAlphanum = true) (n : List Char)
    (as : List (List Char × List Char)) (sc : Bool) (an av rest : List Char) :
    tokenize_from attribute_value_unquoted_state (.start_tag n as sc (some (an, av)))
        (cs ++ rest) =
      tokenize_from attribute_value_unquoted_state
        (.start_tag n as sc (some (an, av ++ cs))) rest := by
  induction cs generalizing av with
  | nil => simp
  | cons c cs ih =>
    simp only [List.all_cons, Bool.and_eq_true] at hcs
    have h1 := alnum_not_space hcs.1
    have h2 : c ≠ '&' := alnum_ne_of_not hcs.1 (by decide)
    have h3 : c ≠ '>' := alnum_ne_of_not hcs.1 (by decide)
    rw [List.cons_append, tokenize_from_cons]
    simp only [body, h1, h2, h3, reduceIte, List.drop_zero, Bool.false_eq_true,
      HTMLToken.add_to_current_attribute_value]
    rw [ih hcs.2]
    simp

/-- C13 fails on the code.  For a tag name `n`, an attribute name `a` and an
unquoted value of letters and digits with first character `v0` and remainder
`v`, the call from `data_state` on `<n a=v0v>` returns a start tag `n` whose
attribute sequence is empty: `before_attribute_value_state` appends `v0` to the
pending attribute name, and the `>` in `attribute_value_unquoted_state`
returns the token without finalizing the pending pair.  On `<a b=c>` the
pending pair is (`bc`, empty). -/
theorem unquoted_value_not_finalized (n a : List Char) (v0 : Char) (v : List Char)
    (hn : is_tag_name n = true) (ha : is_attr_name a = true)
    (hv : is_unquoted_value (v0 :: v) = true) :
    create_token_from_string (['<'] ++ n ++ [' '] ++ a ++ ['='] ++ (v0 :: v) ++ ['>'])
        data_state =
        some ⟨.start_tag n [] false (some (a ++ [v0], v)), data_state, true⟩ ∧
      create_token_from_string "<a b=c>".toList data_state =
        some ⟨.start_tag ['a'] [] false (some (['b', 'c'], [])), data_state, true⟩ := by
  refine ⟨?_, by decide⟩
  simp only [is_unquoted_value, List.isEmpty_cons, Bool.not_false, Bool.true_and, List.all_cons,
    Bool.and_eq_true] at hv
  have h1 := alnum_not_space hv.1
  have h2 : v0 ≠ '"' := alnum_ne_of_not hv.1 (by decide)
  have h3 : v0 ≠ '&' := alnum_ne_of_not hv.1 (by decide)
  have h4 : v0 ≠ '\'' := alnum_ne_of_not hv.1 (by decide)
  have h5 : v0 ≠ '>' := alnum_ne_of_not hv.1 (by decide)
  unfold create_token_from_string
  simp only [List.cons_append, List.nil_append, List.append_assoc]
  rw [open_attribute n a hn ha, tokenize_from_cons]
  simp only [body, h1, h2, h3, h4, h5, reduceIte, List.drop_zero, Bool.false_eq_true,
    HTMLToken.add_to_current_attribute_name]
  rw [unquoted_run v hv.2, tokenize_from_cons]
  simp [body, show is_space '>' = false by decide]

/-- C13 at `<img src=x1>`. -/
theorem unquoted_value_not_finalized_witness :
    create_token_from_string
        (['<'] ++ "img".toList ++ [' '] ++ "src".toList ++ ['='] ++ ('x' :: ['1']) ++ ['>'])
        data_state =
      some ⟨.start_tag "img".toList [] false (some ("src".toList ++ ['x'], ['1'])), data_state,
        true⟩ :=
  (unquoted_value_not_finalized "img".toList "src".toList 'x' ['1'] (by decide) (by decide)
    (by decide)).1

/-! ## C14 and C15: after the doctype name -/

/-- From `data_state`, `<!DOCTYPE`, a space and a doctype name lead to
`doctype_name_state` with a doctype of that name in hand. -/
theorem open_doctype (n : List Char) (hn : is_doctype_name n = true) (rest : List Char) :
    tokenize_from data_state .base ("<!DOCTYPE ".toList ++ (n ++ rest)) =
      tokenize_from doctype_name_state (.doctype n false false) rest := by
  cases n with
  | nil => simp [is_doctype_name] at hn
  | cons c n =>
    simp only [is_doctype_name, List.isEmpty_cons, Bool.not_false, Bool.true_and, List.all_cons,
      Bool.and_eq_true, Bool.not_eq_true', bne_iff_ne, ne_eq] at hn
    have hs : "<!DOCTYPE ".toList = '<' :: '!' :: ("DOCTYPE".toList ++ [' ']) := by decide
    rw [hs]
    simp only [List.cons_append, List.append_assoc]
    rw [tokenize_from_cons]
    simp only [body, Char.reduceEq, reduceIte, List.drop_zero]
    rw [tokenize_from_cons]
    simp only [body, Char.reduceEq, reduceIte, List.drop_zero]
    rw [markup_doctype_word _ (by decide)]
    have hsk := doctype_skip [' '] (by decide) HTMLToken.base c hn.1.1 (n ++ rest)
    simp only [List.cons_append, List.nil_append] at hsk ⊢
    rw [hsk, tokenize_from_cons]
    simp only [body, hn.1.1, hn.1.2, reduceIte, List.drop_zero, Bool.false_eq_true,
      HTMLToken.new_doctype, HTMLToken.add_char_to_tag_name]
    rw [doctype_name_run n (by simpa using hn.2), add_name_doctype]
    simp

/-- In `after_doctype_name_state` whitespace is skipped. -/
theorem after_doctype_name_skip (w : List Char) (hw : w.all is_space = true)
    (tok : HTMLToken) (rest : List Char) :
    tokenize_from after_doctype_name_state tok (w ++ rest) =
      tokenize_from after_doctype_name_state tok rest := by
  induction w with
  | nil => rfl
  | cons c w ih =>
    simp only [List.all_cons, Bool.and_eq_true] at hw
    rw [List.cons_append, tokenize_from_cons]
    simp only [body, hw.1, reduceIte, List.drop_zero]
    exact ih hw.2

/-- In `bogus_doctype_state` every character other than `>` is skipped. -/
theorem bogus_doctype_skip (j : List Char) (hj : '>' ∉ j) (tok : HTMLToken)
    (rest : List Char) :
    tokenize_from bogus_doctype_state tok (j ++ rest) =
      tokenize_from bogus_doctype_state tok rest := by
  induction j with
  | nil => rfl
  | cons c j ih =>
    simp only [List.mem_cons, not_or] at hj
    have h1 : c ≠ '>' := fun h => hj.1 h.symm
    rw [List.cons_append, tokenize_from_cons]
    simp only [body, h1, reduceIte, List.drop_zero]
    exact ih hj.2

/-- C14 fails on the code when whitespace follows the name.  For a doctype
name `n` and a non-empty whitespace run `w`, the call from `data_state` on
`<!DOCTYPE n w>` returns nothing at the `>`: `after_doctype_name_state` has no
case for `>`, sets force-quirks and goes to `bogus_doctype_state`, and the
call ends after the loop with that state.  Without whitespace the `>` does
complete the token with force-quirks off.  `<!DOCTYPE html >` and
`<!DOCTYPE html>` differ. -/
theorem doctype_space_before_close (n w : List Char) (hn : is_doctype_name n = true)
    (hw : w.all is_space = true) (hne : w ≠ []) :
    create_token_from_string ("<!DOCTYPE ".toList ++ n ++ w ++ ['>']) data_state =
        some ⟨.doctype n true true, bogus_doctype_state, false⟩ ∧
      create_token_from_string ("<!DOCTYPE ".toList ++ n ++ ['>']) data_state =
        some ⟨.doctype n true false, data_state, true⟩ ∧
      create_token_from_string "<!DOCTYPE html >".toList data_state =
        some ⟨.doctype "html".toList true true, bogus_doctype_state, false⟩ ∧
      create_token_from_string "<!DOCTYPE html>".toList data_state =
        some ⟨.doctype "html".toList true false, data_state, true⟩ := by
  refine ⟨?_, ?_, by decide, by decide⟩
  · cases w with
    | nil => exact absurd rfl hne
    | cons w0 w =>
      simp only [List.all_cons, Bool.and_eq_true] at hw
      unfold create_token_from_string
      simp only [List.append_assoc]
      rw [open_doctype n hn, List.cons_append, tokenize_from_cons]
      simp only [body, hw.1, reduceIte, List.drop_zero, HTMLToken.set_is_name_set]
      rw [after_doctype_name_skip w hw.2, tokenize_from_cons]
      simp only [body, show is_space '>' = false by decide, reduceIte, List.drop_zero,
        Bool.false_eq_true, HTMLToken.set_quirks_required]
      rfl
  · unfold create_token_from_string
    simp only [List.append_assoc]
    rw [open_doctype n hn, tokenize_from_cons]
    simp [body, HTMLToken.set_is_name_set, show is_space '>' = false by decide]

/-- C14 at `<!DOCTYPE svg` followed by a tab, a line feed and `>`. -/
theorem doctype_space_before_close_witness :
    create_token_from_string ("<!DOCTYPE ".toList ++ "svg".toList ++ ['\t', '\n'] ++ ['>'])
        data_state =
      some ⟨.doctype "svg".toList true true, bogus_doctype_state, false⟩ :=
  (doctype_space_before_close "svg".toList ['\t', '\n'] (by decide) (by decide) (by decide)).1

@[simp] theorem force_quirks_add_char_to_tag_name (t : HTMLToken) (c : Char) :
    force_quirks_of (t.add_char_to_tag_name c) = force_quirks_of t := by
  cases t <;> rfl

@[simp] theorem force_quirks_set_is_name_set (t : HTMLToken) (b : Bool) :
    force_quirks_of (t.set_is_name_set b) = force_quirks_of t := by
  cases t <;> rfl

theorem force_quirks_set_true (t : HTMLToken) (h : force_quirks_of t = true) :
    force_quirks_of (t.set_quirks_required true) = true := by
  cases t <;> simp_all [force_quirks_of, HTMLToken.set_quirks_required]

/-- One pass in a state after the start of the doctype name keeps a
force-quirks flag that is on, and stays within these states. -/
theorem body_keeps_force_quirks (st : tokenizer_state) (tok : HTMLToken) (c : Char)
    (rest : List Char) (hst : doctype_tail_state st = true) (h : force_quirks_of tok = true) :
    match body st tok c rest with
    | .ret t _ => force_quirks_of t = true
    | .next t s _ => force_quirks_of t = true ∧ doctype_tail_state s = true
    | .reconsume _ _ => False := by
  cases st <;> simp only [doctype_tail_state, Bool.false_eq_true] at hst <;>
    simp only [body] <;> split_ifs <;>
    simp [h, force_quirks_set_true, doctype_tail_state]

theorem loop_keeps_force_quirks (f : Nat) :
    ∀ (st : tokenizer_state) (tok : HTMLToken) (inp : List Char) (o : Outcome),
      doctype_tail_state st = true → force_quirks_of tok = true →
      tokenize_loop f st tok inp = some o → force_quirks_of o.token = true := by
  induction f with
  | zero => intro st tok inp o _ _ h; simp [tokenize_loop] at h
  | succ f ih =>
    intro st tok inp o hst hq h
    cases inp with
    | nil =>
      simp only [tokenize_loop, Option.some.injEq] at h
      subst h
      exact hq
    | cons c rest =>
      have hb := body_keeps_force_quirks st tok c rest hst hq
      simp only [tokenize_loop] at h
      cases hbody : body st tok c rest with
      | ret t s =>
        rw [hbody] at h hb
        simp only [Option.some.injEq] at h
        subst h
        exact hb
      | next t s k =>
        rw [hbody] at h hb
        exact ih s t _ o hb.2 hb.1 h
      | reconsume t s =>
        rw [hbody] at hb
        exact absurd hb id

/-- C15. For a doctype name `n`, a non-empty whitespace run `w`, a character
`c` that is neither whitespace nor `>` and a text `j` without `>`, the call
from `data_state` on `<!DOCTYPE n w c j >` returns, from inside the loop at the
final `>`, the doctype token with name `n`, name-set flag true and force-quirks
true, and leaves the state at `data_state`.  And from any state after the
start of the doctype name, a token whose force-quirks flag is on is handed
back with the flag on, whatever the input. -/
theorem bogus_doctype_forces_quirks (n w : List Char) (c : Char) (j : List Char)
    (hn : is_doctype_name n = true) (hw : w.all is_space = true) (hne : w ≠ [])
    (hc : is_space c = false) (_hc2 : c ≠ '>') (hj : '>' ∉ j) :
    create_token_from_string ("<!DOCTYPE ".toList ++ n ++ w ++ [c] ++ j ++ ['>']) data_state =
        some ⟨.doctype n true true, data_state, true⟩ ∧
      ∀ (st : tokenizer_state) (tok : HTMLToken) (inp : List Char) (o : Outcome),
        doctype_tail_state st = true → force_quirks_of tok = true →
        tokenize_from st tok inp = some o → force_quirks_of o.token = true := by
  refine ⟨?_, fun st tok inp o hst hq h => loop_keeps_force_quirks _ st tok inp o hst hq h⟩
  cases w with
  | nil => exact absurd rfl hne
  | cons w0 w =>
    simp only [List.all_cons, Bool.and_eq_true] at hw
    unfold create_token_from_string
    simp only [List.append_assoc]
    rw [open_doctype n hn, List.cons_append, tokenize_from_cons]
    simp only [body, hw.1, reduceIte, List.drop_zero, HTMLToken.set_is_name_set]
    rw [after_doctype_name_skip w hw.2, List.singleton_append, tokenize_from_cons]
    simp only [body, hc, reduceIte, List.drop_zero, Bool.false_eq_true,
      HTMLToken.set_quirks_required]
    rw [bogus_doctype_skip j hj, tokenize_from_cons]
    simp [body]

/-- C15 at `<!DOCTYPE html PUBLIC "x">`. -/
theorem bogus_doctype_forces_quirks_witness :
    create_token_from_string
        ("<!DOCTYPE ".toList ++ "html".toList ++ [' '] ++ ['P'] ++ "UBLIC \"x\"".toList ++ ['>'])
        data_state =
      some ⟨.doctype "html".toList true true, data_state, true⟩ :=
  (bogus_doctype_forces_quirks "html".toList [' '] 'P' "UBLIC \"x\"".toList (by decide)
    (by decide) (by decide) (by decide) (by decide) (by decide)).1

/-! ## C16 and C19: states without a case of their own -/

/-- In `bogus_comment_state` the loop reads on to the end of the input without
changing state or token. -/
theorem bogus_comment_stuck (inp : List Char) (tok : HTMLToken) :
    tokenize_from bogus_comment_state tok inp = some ⟨tok, bogus_comment_state, false⟩ := by
  induction inp with
  | nil => rfl
  | cons c inp ih =>
    rw [tokenize_from_cons]
    simp only [body, List.drop_zero]
    exact ih

/-- In `char_ref_in_attribute_value_state`, which falls to the `default` branch,
the loop reads on to the end of the input without changing state or token. -/
theorem char_ref_in_attribute_value_stuck (inp : List Char) (tok : HTMLToken) :
    tokenize_from char_ref_in_attribute_value_state tok inp =
      some ⟨tok, char_ref_in_attribute_value_state, false⟩ := by
  induction inp with
  | nil => rfl
  | cons c inp ih =>
    rw [tokenize_from_cons]
    simp only [body, List.drop_zero]
    exact ih

/-- C16 fails as stated: on `<?x>` no comment is returned; the call uses up
the input in `bogus_comment_state` and returns the base token. -/
theorem bogus_comment_not_emitted :
    create_token_from_string "<?x>".toList data_state =
      some ⟨.base, bogus_comment_state, false⟩ := by
  decide

/-- C16, amended. In `bogus_comment_state` every character, `>` included, is
read without any change of state or token and nothing is returned inside the
loop; on `<?` followed by any text the call returns the base token from the
statement after the loop, with the state at `bogus_comment_state`. -/
theorem bogus_comment_reads_on (d : List Char) :
    (∀ tok : HTMLToken,
        tokenize_from bogus_comment_state tok d = some ⟨tok, bogus_comment_state, false⟩) ∧
      (∀ (tok : HTMLToken) (c : Char) (rest : List Char),
        body bogus_comment_state tok c rest = .next tok bogus_comment_state 0) ∧
      create_token_from_string ('<' :: '?' :: d) data_state =
        some ⟨.base, bogus_comment_state, false⟩ := by
  refine ⟨fun tok => bogus_comment_stuck d tok, fun _ _ _ => rfl, ?_⟩
  unfold create_token_from_string
  rw [tokenize_from_cons]
  simp only [body, Char.reduceEq, reduceIte, List.drop_zero]
  rw [tokenize_from_cons]
  simp only [body, Char.reduceEq, reduceIte, List.drop_zero,
    show isalpha '?' = false by decide, Bool.false_eq_true]
  exact bogus_comment_stuck d _

/-- In `attribute_value_single_quoted_state` a run of characters other than
`'` and `&` is appended to the pending attribute value. -/
theorem single_quoted_run (cs : List Char) (hq : '\'' ∉ cs) (hamp : '&' ∉ cs) (n : List Char)
    (as : List (List Char × List Char)) (sc : Bool) (an av rest : List Char) :
    tokenize_from attribute_value_single_quoted_state (.start_tag n as sc (some (an, av)))
        (cs ++ rest) =
      tokenize_from attribute_value_single_quoted_state
        (.start_tag n as sc (some (an, av ++ cs))) rest := by
  induction cs generalizing av with
  | nil => simp
  | cons c cs ih =>
    simp only [List.mem_cons, not_or] at hq hamp
    have h1 : c ≠ '\'' := fun h => hq.1 h.symm
    have h2 : c ≠ '&' := fun h => hamp.1 h.symm
    rw [List.cons_append, tokenize_from_cons]
    simp only [body, h1, h2, reduceIte, List.drop_zero, HTMLToken.add_to_current_attribute_value]
    rw [ih hq.2 hamp.2]
    simp

/-- C19 fails as stated: on `<a b="x&y">` no start tag is returned at the
`>`; the call uses up the input in `char_ref_in_attribute_value_state` and
returns the start tag in progress, with the pair (`b`, `x`) still pending and
the text after the `&` dropped. -/
theorem ampersand_stops_the_tag :
    create_token_from_string "<a b=\"x&y\">".toList data_state =
      some ⟨.start_tag ['a'] [] false (some (['b'], ['x'])),
        char_ref_in_attribute_value_state, false⟩ := by
  decide

/-- C19, amended. An `&` inside a quoted attribute value moves the loop to
`char_ref_in_attribute_value_state`, and there it stays: for a tag name `n`,
an attribute name `a`, a text `v` without the quote and without `&`, and any
text `r`, the call from `data_state` on `<n a="v&r` (or with single quotes)
uses up the input and returns the start tag in progress, the pair (`a`, `v`)
pending, nothing of `r` in it, with the state at
`char_ref_in_attribute_value_state`. -/
theorem ampersand_in_quoted_value (n a v r : List Char) (hn : is_tag_name n = true)
    (ha : is_attr_name a = true) (hamp : '&' ∉ v) :
    ('"' ∉ v →
        create_token_from_string (['<'] ++ n ++ [' '] ++ a ++ ['=', '"'] ++ v ++ ['&'] ++ r)
          data_state =
        some ⟨.start_tag n [] false (some (a, v)), char_ref_in_attribute_value_state, false⟩) ∧
      ('\'' ∉ v →
        create_token_from_string (['<'] ++ n ++ [' '] ++ a ++ ['=', '\''] ++ v ++ ['&'] ++ r)
          data_state =
        some ⟨.start_tag n [] false (some (a, v)), char_ref_in_attribute_value_state, false⟩) := by
  constructor
  · intro hq
    unfold create_token_from_string
    simp only [List.cons_append, List.nil_append, List.append_assoc]
    rw [open_attribute n a hn ha, tokenize_from_cons]
    simp only [body, show is_space '"' = false by decide, reduceIte, List.drop_zero,
      Bool.false_eq_true]
    rw [double_quoted_run v hq hamp, tokenize_from_cons]
    simp only [body, Char.reduceEq, reduceIte, List.drop_zero, List.nil_append]
    exact char_ref_in_attribute_value_stuck r _
  · intro hq
    unfold create_token_from_string
    simp only [List.cons_append, List.nil_append, List.append_assoc]
    rw [open_attribute n a hn ha, tokenize_from_cons]
    simp only [body, show is_space '\'' = false by decide, Char.reduceEq, reduceIte,
      List.drop_zero, Bool.false_eq_true]
    rw [single_quoted_run v hq hamp, tokenize_from_cons]
    simp only [body, Char.reduceEq, reduceIte, List.drop_zero, List.nil_append]
    exact char_ref_in_attribute_value_stuck r _

/-- C19 amended, at `<a href="x&amp;y">` and `<a href='x&amp;y'>`. -/
theorem ampersand_in_quoted_value_witness :
    create_token_from_string
        (['<'] ++ ['a'] ++ [' '] ++ "href".toList ++ ['=', '"'] ++ ['x'] ++ ['&'] ++
          "amp;y\">".toList) data_state =
        some ⟨.start_tag ['a'] [] false (some ("href".toList, ['x'])),
          char_ref_in_attribute_value_state, false⟩ ∧
      create_token_from_string
        (['<'] ++ ['a'] ++ [' '] ++ "href".toList ++ ['=', '\''] ++ ['x'] ++ ['&'] ++
          "amp;y'>".toList) data_state =
        some ⟨.start_tag ['a'] [] false (some ("href".toList, ['x'])),
          char_ref_in_attribute_value_state, false⟩ :=
  ⟨(ampersand_in_quoted_value ['a'] "href".toList ['x'] "amp;y\">".toList (by decide)
      (by decide) (by decide)).1 (by decide),
    (ampersand_in_quoted_value ['a'] "href".toList ['x'] "amp;y'>".toList (by decide)
      (by decide) (by decide)).2 (by decide)⟩

/-! ## C17 and C18: characters that match no branch -/

/-- C17 fails as stated: after `<` and a space the state is still
`tag_open_state`, and on `< a>` the start tag `a` is returned at the `>`. -/
theorem tag_open_skips_character :
    create_token_from_string "< ".toList data_state = some ⟨.base, tag_open_state, false⟩ ∧
      create_token_from_string "< a>".toList data_state =
        some ⟨.start_tag ['a'] [] false none, data_state, true⟩ := by
  constructor <;> decide

/-- C17, amended. In `tag_open_state` a character in the domain of `isalpha`
(a value up to 255) that is not `!`, `/`, `?` or an ASCII letter leaves state
and token as they are (the character is passed over, nothing is looked at
again); so on `<`, such a character and `a>` the call returns, at the `>`, the
start tag `a`, and leaves `data_state`.  Nothing is said about characters above
255, for which the answer of `isalpha` is not fixed. -/
theorem tag_open_other_character (c : Char) (_hdom : isalpha_defined c = true)
    (h1 : c ≠ '!') (h2 : c ≠ '/') (h3 : c ≠ '?') (h4 : isalpha c = false) :
    (∀ (tok : HTMLToken) (rest : List Char),
        body tag_open_state tok c rest = .next tok tag_open_state 0) ∧
      create_token_from_string ['<', c, 'a', '>'] data_state =
        some ⟨.start_tag ['a'] [] false none, data_state, true⟩ := by
  have hb : ∀ (tok : HTMLToken) (rest : List Char),
      body tag_open_state tok c rest = .next tok tag_open_state 0 := by
    intro tok rest
    simp only [body, h1, h2, h3, h4, reduceIte, Bool.false_eq_true]
  refine ⟨hb, ?_⟩
  unfold create_token_from_string
  rw [tokenize_from_cons]
  simp only [body, Char.reduceEq, reduceIte, List.drop_zero]
  rw [tokenize_from_cons, hb]
  simp only [List.drop_zero]
  decide

/-- C17 amended, at the digit `1`. -/
theorem tag_open_other_character_witness :
    (∀ (tok : HTMLToken) (rest : List Char),
        body tag_open_state tok '1' rest = .next tok tag_open_state 0) ∧
      create_token_from_string ['<', '1', 'a', '>'] data_state =
        some ⟨.start_tag ['a'] [] false none, data_state, true⟩ :=
  tag_open_other_character '1' (by decide) (by decide) (by decide) (by decide) (by decide)

/-- A window at whose head the search finds `doctype` matches it there. -/
theorem window_match (w : List Char)
    (h : get_wstring_iposition w ['d', 'o', 'c', 't', 'y', 'p', 'e'] = 0) :
    imatch_here ['d', 'o', 'c', 't', 'y', 'p', 'e'] w = true := by
  cases w with
  | nil => simp [get_wstring_iposition, iposition_from] at h
  | cons c w =>
    by_contra hm
    simp only [get_wstring_iposition, iposition_from, hm, Bool.false_eq_true, reduceIte] at h
    exact iposition_from_pos _ _ _ (by omega) h

/-- A window of at most seven characters at whose head the search finds
`doctype` is a spelling of that word. -/
theorem window_is_doctype_word (w : List Char) (hl : w.length ≤ 7)
    (h : get_wstring_iposition w ['d', 'o', 'c', 't', 'y', 'p', 'e'] = 0) :
    is_doctype_word w = true := by
  have hm := window_match w h
  have e0 : ('d' : Char).toLower = 'd' := by decide
  have e1 : ('o' : Char).toLower = 'o' := by decide
  have e2 : ('c' : Char).toLower = 'c' := by decide
  have e3 : ('t' : Char).toLower = 't' := by decide
  have e4 : ('y' : Char).toLower = 'y' := by decide
  have e5 : ('p' : Char).toLower = 'p' := by decide
  have e6 : ('e' : Char).toLower = 'e' := by decide
  rcases w with _ | ⟨_, _ | ⟨_, _ | ⟨_, _ | ⟨_, _ | ⟨_, _ | ⟨_, _ | ⟨_, _ | ⟨_, w⟩⟩⟩⟩⟩⟩⟩⟩ <;>
    simp only [imatch_here, Bool.and_eq_true, Bool.false_eq_true, and_false, false_and,
      List.length_cons, List.length_nil] at hm hl
  · simp only [ieq, e0, e1, e2, e3, e4, e5, e6, beq_iff_eq, and_true] at hm
    obtain ⟨h0, h1, h2, h3, h4, h5, h6⟩ := hm
    simp [is_doctype_word, ← h0, ← h1, ← h2, ← h3, ← h4, ← h5, ← h6]
  · omega

/-- C18 fails as stated: after `<!x` the state is still
`markup_declaration_open_state`, not `bogus_comment_state`; the windows are
tested again at every following character, so `<!x--y-->` returns the comment
`y`. -/
theorem markup_no_match_stays :
    create_token_from_string "<!x".toList data_state =
        some ⟨.base, markup_declaration_open_state, false⟩ ∧
      create_token_from_string "<!x--y-->".toList data_state =
        some ⟨.comment ['y'], data_state, true⟩ := by
  constructor <;> decide

/-- C18, amended. In `markup_declaration_open_state`, when the next two
characters are not `--` and the next seven characters are not a spelling of
`doctype` in some mix of case, the pass leaves state and token as they are and
moves on by one character: the loop stays in `markup_declaration_open_state`
(after `<!x` that is the state). -/
theorem markup_no_match (tok : HTMLToken) (c : Char) (rest : List Char)
    (h2 : (c :: rest).take 2 ≠ ['-', '-']) (h7 : is_doctype_word ((c :: rest).take 7) = false) :
    body markup_declaration_open_state tok c rest =
        .next tok markup_declaration_open_state 0 ∧
      create_token_from_string "<!x".toList data_state =
        some ⟨.base, markup_declaration_open_state, false⟩ := by
  refine ⟨?_, by decide⟩
  have hw : get_wstring_iposition ((c :: rest).take 7) ['d', 'o', 'c', 't', 'y', 'p', 'e'] ≠ 0 := by
    intro h
    have := window_is_doctype_word _ (by simp) h
    rw [h7] at this
    exact Bool.noConfusion this
  rw [body_markup]
  simp only [h2, hw, reduceIte]

/-- C18 amended, at the `x` of `<!x-` . -/
theorem markup_no_match_witness :
    body markup_declaration_open_state .base 'x' ['-'] =
        .next .base markup_declaration_open_state 0 ∧
      create_token_from_string "<!x".toList data_state =
        some ⟨.base, markup_declaration_open_state, false⟩ :=
  markup_no_match .base 'x' ['-'] (by decide) (by decide)

/-! ## C20: what follows the first token is not read -/

/-- Every `return` inside the loop leaves `data_state`. -/
theorem body_ret_state (st : tokenizer_state) (tok : HTMLToken) (c : Char) (rest : List Char)
    (t : HTMLToken) (s : tokenizer_state) (h : body st tok c rest = .ret t s) :
    s = data_state := by
  by_cases hst : st = markup_declaration_open_state
  · subst hst
    rw [body_markup] at h
    split_ifs at h
  · cases st <;> simp only [body] at h <;> (try split_ifs at h) <;>
      first
      | exact absurd rfl hst
      | (simp only [Step.ret.injEq] at h; exact h.2.symm)
      | simp only [reduceCtorEq] at h

theorem loop_in_loop_state (f : Nat) :
    ∀ (st : tokenizer_state) (tok : HTMLToken) (inp : List Char) (o : Outcome),
      tokenize_loop f st tok inp = some o → o.in_loop = true → o.state = data_state := by
  induction f with
  | zero => intro st tok inp o h; simp [tokenize_loop] at h
  | succ f ih =>
    intro st tok inp o h hl
    cases inp with
    | nil =>
      simp only [tokenize_loop, Option.some.injEq] at h
      subst h
      simp at hl
    | cons c rest =>
      simp only [tokenize_loop] at h
      cases hbody : body st tok c rest with
      | ret t s =>
        rw [hbody] at h
        simp only [Option.some.injEq] at h
        subst h
        exact body_ret_state st tok c rest t s hbody
      | next t s k =>
        rw [hbody] at h
        exact ih s t _ o h hl
      | reconsume t s =>
        rw [hbody] at h
        exact ih s t _ o h hl

/-- Where a pattern without a dash matches up to case, there is no dash. -/
theorem imatch_here_no_dash (p : List Char) (hp : ∀ q ∈ p, q.toLower ≠ '-') :
    ∀ s : List Char, imatch_here p s = true → ∀ x ∈ s.take p.length, x ≠ '-' := by
  induction p with
  | nil => intro s _ x hx; simp at hx
  | cons q p ih =>
    intro s hm x hx
    cases s with
    | nil => simp [imatch_here] at hm
    | cons y s =>
      simp only [imatch_here, Bool.and_eq_true, ieq, beq_iff_eq] at hm
      simp only [List.length_cons, List.take_succ_cons, List.mem_cons] at hx
      rcases hx with rfl | hx
      · rintro rfl
        exact hp q (List.mem_cons_self _ _) (by rw [hm.1]; decide)
      · exact ih (fun r hr => hp r (List.mem_cons_of_mem _ hr)) s hm.2 x hx

/-- A text of fewer than seven characters without a dash leaves
`markup_declaration_open_state` as it is. -/
theorem markup_short_stays (a : List Char) (hd : ∀ x ∈ a, x ≠ '-') (hl : a.length < 7)
    (tok : HTMLToken) :
    tokenize_from markup_declaration_open_state tok a =
      some ⟨tok, markup_declaration_open_state, false⟩ := by
  induction a with
  | nil => rfl
  | cons c a ih =>
    have hc : c ≠ '-' := hd c (List.mem_cons_self _ _)
    have h2 : (c :: a).take 2 ≠ ['-', '-'] := by
      simp only [List.take_succ_cons, ne_eq, List.cons.injEq, not_and]
      intro h
      exact absurd h hc
    have h7 : get_wstring_iposition ((c :: a).take 7) ['d', 'o', 'c', 't', 'y', 'p', 'e'] ≠ 0 := by
      intro h
      have := window_length _ h
      simp only [List.length_take, List.length_cons] at this hl
      omega
    rw [tokenize_from_cons, body_markup]
    simp only [h2, h7, reduceIte, List.drop_zero]
    exact ih (fun x hx => hd x (List.mem_cons_of_mem _ hx))
      (by simp only [List.length_cons] at hl; omega)

/-- A run that returns from inside the loop returns the same on any longer
input: what follows the character at which it returns is not read, and no
window taken earlier reaches past the end of the shorter input with a
different answer. -/
theorem emitted_ignores_rest (b : List Char) (n : Nat) :
    ∀ (st : tokenizer_state) (tok : HTMLToken) (a : List Char) (o : Outcome),
      passes_bound st a = n → tokenize_from st tok a = some o → o.in_loop = true →
      tokenize_from st tok (a ++ b) = some o := by
  induction n using Nat.strong_induction_on with
  | _ n ih =>
    intro st tok a o hn h hl
    cases a with
    | nil =>
      rw [tokenize_from_nil] at h
      simp only [Option.some.injEq] at h
      subst h
      simp at hl
    | cons c a =>
      rw [tokenize_from_cons] at h
      rw [List.cons_append, tokenize_from_cons]
      by_cases hm : st = markup_declaration_open_state
      · subst hm
        rw [body_markup] at h ⊢
        by_cases hd : (c :: a).take 2 = ['-', '-']
        · have hlen : 1 ≤ a.length := by
            cases a with
            | nil => simp at hd
            | cons x a => simp
          have h2 : (c :: (a ++ b)).take 2 = (c :: a).take 2 := by
            rw [← List.cons_append, List.take_append_of_le_length]
            simp only [List.length_cons]; omega
          rw [h2]
          simp only [hd, reduceIte] at h ⊢
          rw [List.drop_append_of_le_length hlen]
          refine ih _ ?_ comment_start_state _ _ o rfl h hl
          subst hn
          simp only [passes_bound, reduceIte, List.length_drop, List.length_cons, reduceCtorEq]
          omega
        · by_cases hw : get_wstring_iposition ((c :: a).take 7)
              ['d', 'o', 'c', 't', 'y', 'p', 'e'] = 0
          · have hlen := window_length _ hw
            simp only [List.length_take, List.length_cons] at hlen
            have h7 : (c :: (a ++ b)).take 7 = (c :: a).take 7 := by
              rw [← List.cons_append, List.take_append_of_le_length]
              simp only [List.length_cons]; omega
            have h2 : (c :: (a ++ b)).take 2 = (c :: a).take 2 := by
              rw [← List.cons_append, List.take_append_of_le_length]
              simp only [List.length_cons]; omega
            rw [h2, h7]
            simp only [hd, hw, reduceIte] at h ⊢
            rw [List.drop_append_of_le_length (by omega)]
            refine ih _ ?_ doctype_state _ _ o rfl h hl
            subst hn
            simp only [passes_bound, reduceIte, List.length_drop, List.length_cons,
              reduceCtorEq]
            omega
          · simp only [hd, hw, reduceIte, List.drop_zero] at h
            have hne : a ≠ [] := by
              rintro rfl
              rw [tokenize_from_nil] at h
              simp only [Option.some.injEq] at h
              subst h
              simp at hl
            have h2 : (c :: (a ++ b)).take 2 = (c :: a).take 2 := by
              cases a with
              | nil => exact absurd rfl hne
              | cons x a => simp
            have hw2 : get_wstring_iposition ((c :: (a ++ b)).take 7)
                ['d', 'o', 'c', 't', 'y', 'p', 'e'] ≠ 0 := by
              intro hw2
              by_cases hlen : 7 ≤ (c :: a).length
              · have h7 : (c :: (a ++ b)).take 7 = (c :: a).take 7 := by
                  rw [← List.cons_append, List.take_append_of_le_length hlen]
                rw [h7] at hw2
                exact hw hw2
              · have hm := window_match _ hw2
                have hnd := imatch_here_no_dash _ (by decide) _ hm
                have hle : (c :: a).length ≤ 7 := by omega
                have e : List.take 7 ((c :: a) ++ b) =
                    (c :: a) ++ List.take (7 - (c :: a).length) b := by
                  rw [List.take_append_eq_append_take, List.take_of_length_le hle]
                have hsub : ∀ x ∈ a, x ≠ '-' := by
                  intro x hx
                  apply hnd x
                  have h77 : List.take 7 (List.take 7 (c :: (a ++ b))) =
                      List.take 7 (c :: (a ++ b)) := by
                    simp [List.take_take]
                  show x ∈ List.take 7 (List.take 7 (c :: (a ++ b)))
                  rw [h77, ← List.cons_append, e]
                  exact List.mem_append_left _ (List.mem_cons_of_mem _ hx)
                have := markup_short_stays a hsub
                  (by simp only [List.length_cons] at hlen; omega) tok
                rw [this] at h
                simp only [Option.some.injEq] at h
                subst h
                simp at hl
            rw [h2]
            simp only [hd, hw2, reduceIte, List.drop_zero]
            refine ih _ ?_ markup_declaration_open_state _ _ o rfl h hl
            subst hn
            simp only [passes_bound, reduceIte, List.length_cons, reduceCtorEq]
            omega
      · rw [body_rest_irrelevant st tok c (a ++ b) a hm]
        cases hbody : body st tok c a with
        | ret t s =>
          rw [hbody] at h
          exact h
        | next t s k =>
          rw [hbody] at h
          have hk := body_skip_zero st tok c a hm t s k hbody
          subst hk
          simp only [List.drop_zero] at h ⊢
          refine ih _ ?_ s t a o rfl h hl
          subst hn
          simp only [passes_bound, List.length_cons]
          split_ifs <;> omega
        | reconsume t s =>
          rw [hbody] at h
          obtain ⟨h3, h4, h5⟩ := body_reconsume hbody
          subst h3 h4 h5
          simp only at h ⊢
          rw [← List.cons_append]
          refine ih _ ?_ before_doctype_name_state _ (c :: a) o rfl h hl
          subst hn
          simp [passes_bound]

/-- C20. If the call from `data_state` on `s` returns a token from inside the
loop (in particular when it does so at the last character of `s`), then for
every text `t` the call on `s ++ t` returns the same token from inside the
loop and leaves the same state, `data_state`: only the first token is
produced, and what follows it is not read. -/
theorem first_token_only (s t : List Char) (o : Outcome)
    (h : create_token_from_string s data_state = some o) (hl : o.in_loop = true) :
    create_token_from_string (s ++ t) data_state = some o ∧ o.state = data_state := by
  unfold create_token_from_string at *
  exact ⟨emitted_ignores_rest t _ data_state .base s o rfl h hl,
    loop_in_loop_state _ _ _ _ o h hl⟩

/-- C20 at `<p>` followed by `hello</p>`. -/
theorem first_token_only_witness :
    create_token_from_string ("<p>".toList ++ "hello</p>".toList) data_state =
        some ⟨.start_tag ['p'] [] false none, data_state, true⟩ ∧
      (Outcome.mk (.start_tag ['p'] [] false none) data_state true).state = data_state :=
  first_token_only "<p>".toList "hello</p>".toList
    ⟨.start_tag ['p'] [] false none, data_state, true⟩ (by decide) rfl

/-! ## C21: a `>` in the attribute-name states -/

/-- A name of ASCII letters is a well-formed tag name. -/
theorem letters_is_tag_name (n : List Char) (hn : is_attr_name n = true) :
    is_tag_name n = true := by
  cases n with
  | nil => simp [is_attr_name] at hn
  | cons c n =>
    simp only [is_attr_name, List.isEmpty_cons, Bool.not_false, Bool.true_and, List.all_cons,
      Bool.and_eq_true, List.all_eq_true] at hn
    simp only [is_tag_name, Bool.and_eq_true, List.all_eq_true]
    exact ⟨hn.1, fun d hd => (is_name_char_iff d).2
      ⟨isalpha_not_space (hn.2 d hd), isalpha_ne_of_not (hn.2 d hd) (by decide),
        isalpha_ne_of_not (hn.2 d hd) (by decide)⟩⟩

/-- C21. A `>` met in `attribute_name_state` or `after_attribute_name_state`
does not end the tag.  In `attribute_name_state` every character other than
whitespace, `/` and `=` (so also `>`) is appended to the pending attribute name
and the state stays; in `after_attribute_name_state` every character other
than `/` and `=` (so also `>`) leaves state and token as they are.  Hence for
names `n` and `a` of ASCII letters the call from `data_state` on `<n a>`
returns nothing at the `>`: it ends after the loop in `attribute_name_state`,
the pending attribute name being `a` followed by `>`. -/
theorem close_angle_in_attribute_name (n a : List Char) (hn : is_attr_name n = true)
    (ha : is_attr_name a = true) :
    (∀ (tok : HTMLToken) (c : Char) (rest : List Char), is_space c = false → c ≠ '/' →
        c ≠ '=' →
        body attribute_name_state tok c rest =
          .next (tok.add_to_current_attribute_name c) attribute_name_state 0) ∧
      (∀ (m : List Char) (as : List (List Char × List Char)) (sc : Bool) (an av : List Char)
        (c : Char),
        (HTMLToken.start_tag m as sc (some (an, av))).add_to_current_attribute_name c =
          .start_tag m as sc (some (an ++ [c], av))) ∧
      (∀ (tok : HTMLToken) (c : Char) (rest : List Char), c ≠ '/' → c ≠ '=' →
        body after_attribute_name_state tok c rest =
          .next tok after_attribute_name_state 0) ∧
      create_token_from_string (['<'] ++ n ++ [' '] ++ a ++ ['>']) data_state =
        some ⟨.start_tag n [] false (some (a ++ ['>'], [])), attribute_name_state, false⟩ := by
  refine ⟨?_, fun _ _ _ _ _ _ => rfl, ?_, ?_⟩
  · intro tok c rest h1 h2 h3
    simp only [body, h1, h2, h3, reduceIte, Bool.false_eq_true]
  · intro tok c rest h2 h3
    by_cases h1 : is_space c = true
    · simp only [body, h1, reduceIte]
    · simp only [body, h1, h2, h3, reduceIte, ite_self]
  · cases a with
    | nil => simp [is_attr_name] at ha
    | cons a0 a =>
      simp only [is_attr_name, List.isEmpty_cons, Bool.not_false, Bool.true_and, List.all_cons,
        Bool.and_eq_true, List.all_eq_true] at ha
      have hs0 := isalpha_not_space ha.1
      have hne1 : a0 ≠ '/' := isalpha_ne_of_not ha.1 (by decide)
      have hne2 : a0 ≠ '>' := isalpha_ne_of_not ha.1 (by decide)
      have hrun : ∀ c ∈ a ++ ['>'], is_space c = false ∧ c ≠ '/' ∧ c ≠ '=' := by
        intro c hc
        rcases List.mem_append.1 hc with hc | hc
        · exact ⟨isalpha_not_space (ha.2 c hc), isalpha_ne_of_not (ha.2 c hc) (by decide),
            isalpha_ne_of_not (ha.2 c hc) (by decide)⟩
        · simp only [List.mem_singleton] at hc
          subst hc
          exact ⟨by decide, by decide, by decide⟩
      unfold create_token_from_string
      simp only [List.cons_append, List.nil_append, List.append_assoc]
      rw [open_start_tag n (letters_is_tag_name n hn), tokenize_from_cons]
      simp only [body, show is_space ' ' = true by decide, reduceIte, List.drop_zero]
      rw [tokenize_from_cons]
      simp only [body, hs0, hne1, hne2, reduceIte, List.drop_zero, Bool.false_eq_true,
        HTMLToken.add_to_current_attribute_name]
      have h := attribute_name_run (a ++ ['>']) hrun n [] false [a0] [] []
      simp only [List.append_nil, List.cons_append, List.nil_append] at h
      rw [h, tokenize_from_nil]

/-- C21 at `<div hidden>`. -/
theorem close_angle_in_attribute_name_witness :
    create_token_from_string (['<'] ++ "div".toList ++ [' '] ++ "hidden".toList ++ ['>'])
        data_state =
      some ⟨.start_tag "div".toList [] false (some ("hidden".toList ++ ['>'], [])),
        attribute_name_state, false⟩ :=
  (close_angle_in_attribute_name "div".toList "hidden".toList (by decide) (by decide)).2.2.2

/-! ## C2, continued: cuts with a token in progress -/

theorem cut_keeps_windows_cons (c : Char) (a b : List Char)
    (h : cut_keeps_windows (c :: a) b = true) :
    windows_unchanged (c :: a) b = true ∧ cut_keeps_windows a b = true := by
  simpa [cut_keeps_windows] using h

theorem cut_keeps_windows_drop (k : Nat) :
    ∀ (a b : List Char), cut_keeps_windows a b = true → cut_keeps_windows (a.drop k) b = true := by
  induction k with
  | zero => intro a b h; simpa using h
  | succ k ih =>
    intro a b h
    cases a with
    | nil => simpa using h
    | cons c a =>
      rw [List.drop_succ_cons]
      exact ih a b (cut_keeps_windows_cons c a b h).2

/-- The state, the exit and the move of the iterator that a pass decides do
not depend on the token in hand. -/
theorem body_control (st : tokenizer_state) (tok1 tok2 : HTMLToken) (c : Char)
    (rest : List Char) :
    (body st tok1 c rest).without_token = (body st tok2 c rest).without_token := by
  by_cases hst : st = markup_declaration_open_state
  · subst hst
    rw [body_markup, body_markup]
    split_ifs <;> rfl
  · cases st <;> simp only [body] <;> (try split_ifs) <;> rfl

/-- The final state and the return point of a run do not depend on the token
the run starts with. -/
theorem loop_control (f : Nat) :
    ∀ (st : tokenizer_state) (tok1 tok2 : HTMLToken) (inp : List Char),
      (tokenize_loop f st tok1 inp).map (fun o => (o.state, o.in_loop)) =
        (tokenize_loop f st tok2 inp).map (fun o => (o.state, o.in_loop)) := by
  induction f with
  | zero => intro st tok1 tok2 inp; rfl
  | succ f ih =>
    intro st tok1 tok2 inp
    cases inp with
    | nil => rfl
    | cons c rest =>
      have hc := body_control st tok1 tok2 c rest
      simp only [tokenize_loop]
      cases h1 : body st tok1 c rest with
      | ret t1 s1 =>
        cases h2 : body st tok2 c rest with
        | ret t2 s2 =>
          rw [h1, h2] at hc
          simp only [Step.without_token, Step.ret.injEq, true_and] at hc
          simp [hc]
        | next t2 s2 k2 => rw [h1, h2] at hc; simp [Step.without_token] at hc
        | reconsume t2 s2 => rw [h1, h2] at hc; simp [Step.without_token] at hc
      | next t1 s1 k1 =>
        cases h2 : body st tok2 c rest with
        | ret t2 s2 => rw [h1, h2] at hc; simp [Step.without_token] at hc
        | next t2 s2 k2 =>
          rw [h1, h2] at hc
          simp only [Step.without_token, Step.next.injEq, true_and] at hc
          obtain ⟨rfl, rfl⟩ := hc
          exact ih s1 t1 t2 _
        | reconsume t2 s2 => rw [h1, h2] at hc; simp [Step.without_token] at hc
      | reconsume t1 s1 =>
        cases h2 : body st tok2 c rest with
        | ret t2 s2 => rw [h1, h2] at hc; simp [Step.without_token] at hc
        | next t2 s2 k2 => rw [h1, h2] at hc; simp [Step.without_token] at hc
        | reconsume t2 s2 =>
          rw [h1, h2] at hc
          simp only [Step.without_token, Step.reconsume.injEq, true_and] at hc
          subst hc
          exact ih s1 t1 t2 _

/-- In a state in which a token is expected to be in hand, a pass makes no new
token: started there with the base token, it keeps the base token and stays
among these states. -/
theorem body_base_outside (st : tokenizer_state) (c : Char) (rest : List Char)
    (h : no_token_state st = false) :
    match body st .base c rest with
    | .ret t _ => t = .base
    | .next t s _ => t = .base ∧ no_token_state s = false
    | .reconsume t s => t = .base ∧ no_token_state s = false := by
  cases st <;> simp only [no_token_state, Bool.true_eq_false] at h <;>
    simp only [body] <;> (try split_ifs) <;>
    simp [no_token_state, HTMLToken.add_char_to_tag_name, HTMLToken.set_self_closing,
      HTMLToken.add_to_current_attribute_name, HTMLToken.add_to_current_attribute_value,
      HTMLToken.process_current_attribute, HTMLToken.set_is_name_set,
      HTMLToken.set_quirks_required, HTMLToken.add_char_to_data]

theorem loop_base_outside (f : Nat) :
    ∀ (st : tokenizer_state) (inp : List Char) (o : Outcome), no_token_state st = false →
      tokenize_loop f st .base inp = some o → o.token = .base := by
  induction f with
  | zero => intro st inp o _ h; simp [tokenize_loop] at h
  | succ f ih =>
    intro st inp o hst h
    cases inp with
    | nil =>
      simp only [tokenize_loop, Option.some.injEq] at h
      subst h
      rfl
    | cons c rest =>
      have hb := body_base_outside st c rest hst
      simp only [tokenize_loop] at h
      cases hbody : body st .base c rest with
      | ret t s =>
        rw [hbody] at h hb
        simp only [Option.some.injEq] at h
        subst h
        exact hb
      | next t s k =>
        rw [hbody] at h hb
        obtain ⟨rfl, hs⟩ := hb
        exact ih s _ o hs h
      | reconsume t s =>
        rw [hbody] at h hb
        obtain ⟨rfl, hs⟩ := hb
        exact ih s _ o hs h

/-- A pass in `markup_declaration_open_state` reads the same with and without
`b` after the input when the two windows do. -/
theorem body_markup_windows (tok : HTMLToken) (c : Char) (a b : List Char)
    (h : windows_unchanged (c :: a) b = true) :
    body markup_declaration_open_state tok c (a ++ b) =
      body markup_declaration_open_state tok c a := by
  simp only [windows_unchanged, List.cons_append, Bool.and_eq_true, beq_iff_eq,
    decide_eq_decide] at h
  rw [body_markup, body_markup]
  simp only [h.1, h.2]

/-- When a run from `markup_declaration_open_state` uses up its input and
leaves another state, the windows at the character before that input read the
same with and without `b` after it. -/
theorem markup_left_windows (tok : HTMLToken) (c : Char) (a b : List Char) (o : Outcome)
    (h : tokenize_from markup_declaration_open_state tok a = some o)
    (hs : o.state ≠ markup_declaration_open_state)
    (hw : get_wstring_iposition ((c :: a).take 7) ['d', 'o', 'c', 't', 'y', 'p', 'e'] ≠ 0) :
    windows_unchanged (c :: a) b = true := by
  have hne : a ≠ [] := by
    rintro rfl
    rw [tokenize_from_nil] at h
    simp only [Option.some.injEq] at h
    subst h
    exact hs rfl
  have h2 : (c :: (a ++ b)).take 2 = (c :: a).take 2 := by
    cases a with
    | nil => exact absurd rfl hne
    | cons x a => simp
  have hw2 : get_wstring_iposition ((c :: (a ++ b)).take 7)
      ['d', 'o', 'c', 't', 'y', 'p', 'e'] ≠ 0 := by
    intro hw2
    by_cases hlen : 7 ≤ (c :: a).length
    · have h7 : (c :: (a ++ b)).take 7 = (c :: a).take 7 := by
        rw [← List.cons_append, List.take_append_of_le_length hlen]
      rw [h7] at hw2
      exact hw hw2
    · have hm := window_match _ hw2
      have hnd := imatch_here_no_dash _ (by decide) _ hm
      have hle : (c :: a).length ≤ 7 := by omega
      have e : List.take 7 ((c :: a) ++ b) =
          (c :: a) ++ List.take (7 - (c :: a).length) b := by
        rw [List.take_append_eq_append_take, List.take_of_length_le hle]
      have hsub : ∀ x ∈ a, x ≠ '-' := by
        intro x hx
        apply hnd x
        have h77 : List.take 7 (List.take 7 (c :: (a ++ b))) =
            List.take 7 (c :: (a ++ b)) := by
          simp [List.take_take]
        show x ∈ List.take 7 (List.take 7 (c :: (a ++ b)))
        rw [h77, ← List.cons_append, e]
        exact List.mem_append_left _ (List.mem_cons_of_mem _ hx)
      have := markup_short_stays a hsub (by simp only [List.length_cons] at hlen; omega) tok
      rw [this] at h
      simp only [Option.some.injEq] at h
      subst h
      exact hs rfl
  simp only [windows_unchanged, List.cons_append, h2, hw, hw2, decide_False, beq_self_eq_true,
    Bool.and_self]

/-- A run that uses up its input can be cut there: the run on `a ++ b` goes on,
on `b`, from the state and with the token that the run on `a` ends with,
provided no look-ahead window changes its answer across the cut (which is so
when the run on `a` leaves a state other than `markup_declaration_open_state`). -/
theorem resume_in_progress (b : List Char) (n : Nat) :
    ∀ (st : tokenizer_state) (tok : HTMLToken) (a : List Char) (o : Outcome),
      passes_bound st a = n → tokenize_from st tok a = some o → o.in_loop = false →
      (o.state ≠ markup_declaration_open_state ∨ cut_keeps_windows a b = true) →
      tokenize_from st tok (a ++ b) = tokenize_from o.state o.token b := by
  induction n using Nat.strong_induction_on with
  | _ n ih =>
    intro st tok a o hn h hl hk
    cases a with
    | nil =>
      rw [tokenize_from_nil] at h
      simp only [Option.some.injEq] at h
      subst h
      rfl
    | cons c a =>
      have hk' : ∀ k, o.state ≠ markup_declaration_open_state ∨
          cut_keeps_windows (a.drop k) b = true := fun k =>
        hk.imp id (fun h => cut_keeps_windows_drop k a b (cut_keeps_windows_cons c a b h).2)
      rw [tokenize_from_cons] at h
      rw [List.cons_append, tokenize_from_cons]
      by_cases hm : st = markup_declaration_open_state
      · subst hm
        by_cases hd : (c :: a).take 2 = ['-', '-']
        · have hlen : 1 ≤ a.length := by
            cases a with
            | nil => simp at hd
            | cons x a => simp
          have h2 : (c :: (a ++ b)).take 2 = (c :: a).take 2 := by
            rw [← List.cons_append, List.take_append_of_le_length]
            simp only [List.length_cons]; omega
          rw [body_markup] at h ⊢
          rw [h2]
          simp only [hd, reduceIte] at h ⊢
          rw [List.drop_append_of_le_length hlen]
          refine ih _ ?_ comment_start_state _ _ o rfl h hl (hk' 1)
          subst hn
          simp only [passes_bound, reduceIte, List.length_drop, List.length_cons, reduceCtorEq]
          omega
        · by_cases hw : get_wstring_iposition ((c :: a).take 7)
              ['d', 'o', 'c', 't', 'y', 'p', 'e'] = 0
          · have hlen := window_length _ hw
            simp only [List.length_take, List.length_cons] at hlen
            have h7 : (c :: (a ++ b)).take 7 = (c :: a).take 7 := by
              rw [← List.cons_append, List.take_append_of_le_length]
              simp only [List.length_cons]; omega
            have h2 : (c :: (a ++ b)).take 2 = (c :: a).take 2 := by
              rw [← List.cons_append, List.take_append_of_le_length]
              simp only [List.length_cons]; omega
            rw [body_markup] at h ⊢
            rw [h2, h7]
            simp only [hd, hw, reduceIte] at h ⊢
            rw [List.drop_append_of_le_length (by omega)]
            refine ih _ ?_ doctype_state _ _ o rfl h hl (hk' 6)
            subst hn
            simp only [passes_bound, reduceIte, List.length_drop, List.length_cons,
              reduceCtorEq]
            omega
          · have hsame : windows_unchanged (c :: a) b = true := by
              rcases hk with hs | hc
              · rw [body_markup] at h
                simp only [hd, hw, reduceIte, List.drop_zero] at h
                exact markup_left_windows tok c a b o h hs hw
              · exact (cut_keeps_windows_cons c a b hc).1
            rw [body_markup_windows tok c a b hsame]
            rw [body_markup] at h ⊢
            simp only [hd, hw, reduceIte, List.drop_zero] at h ⊢
            refine ih _ ?_ markup_declaration_open_state _ _ o rfl h hl (by simpa using hk' 0)
            subst hn
            simp only [passes_bound, reduceIte, List.length_cons, reduceCtorEq]
            omega
      · rw [body_rest_irrelevant st tok c (a ++ b) a hm]
        cases hbody : body st tok c a with
        | ret t s =>
          rw [hbody] at h
          simp only [Option.some.injEq] at h
          subst h
          simp at hl
        | next t s k =>
          rw [hbody] at h
          have hk0 := body_skip_zero st tok c a hm t s k hbody
          subst hk0
          simp only [List.drop_zero] at h ⊢
          refine ih _ ?_ s t a o rfl h hl (by simpa using hk' 0)
          subst hn
          simp only [passes_bound, List.length_cons]
          split_ifs <;> omega
        | reconsume t s =>
          rw [hbody] at h
          obtain ⟨h3, h4, h5⟩ := body_reconsume hbody
          subst h3 h4 h5
          simp only at h ⊢
          rw [← List.cons_append]
          refine ih _ ?_ before_doctype_name_state _ (c :: a) o rfl h hl hk
          subst hn
          simp [passes_bound]

/-- C2, amended. Let the first call run from `data_state` on `a`.  If it
returns a token from inside the loop, one call on `a ++ b` returns that same
result, whatever `b` is.  If it uses up `a` (it returns from the statement
after the loop) and no look-ahead window changes its answer across the cut
(which is so whenever it leaves a state other than
`markup_declaration_open_state`), then the second call, on `b` with the state
the first call left, ends in the same final state and at the same return point
as one call on `a ++ b`; it returns the same token as well when the first call
returned the base token (no token was begun within `a`), and otherwise it
returns the base token where the one call returns a token that has been
begun: the token in progress is not carried from one call to the next. -/
theorem chunk_resume (a b : List Char) (o : Outcome)
    (h1 : create_token_from_string a data_state = some o) :
    (o.in_loop = true → create_token_from_string (a ++ b) data_state = some o) ∧
      (o.in_loop = false →
        (o.state ≠ markup_declaration_open_state ∨ cut_keeps_windows a b = true) →
        ∃ o2 ow : Outcome,
          create_token_from_string b o.state = some o2 ∧
          create_token_from_string (a ++ b) data_state = some ow ∧
          o2.state = ow.state ∧ o2.in_loop = ow.in_loop ∧
          (o.token = .base → o2.token = ow.token) ∧
          (o.token ≠ .base → o2.token = .base ∧ ow.token ≠ .base)) := by
  unfold create_token_from_string at *
  constructor
  · intro hl
    exact emitted_ignores_rest b _ data_state .base a o rfl h1 hl
  · intro hl hk
    have hA := resume_in_progress b _ data_state .base a o rfl h1 hl hk
    obtain ⟨o2, ho2⟩ := Option.isSome_iff_exists.1 (tokenize_from_isSome o.state .base b)
    obtain ⟨ow, how⟩ := Option.isSome_iff_exists.1 (tokenize_from_isSome o.state o.token b)
    have hc := loop_control (2 * b.length + 2) o.state .base o.token b
    have ho2' : tokenize_loop (2 * b.length + 2) o.state .base b = some o2 := ho2
    have how' : tokenize_loop (2 * b.length + 2) o.state o.token b = some ow := how
    rw [ho2', how'] at hc
    simp only [Option.map_some', Option.some.injEq, Prod.mk.injEq] at hc
    refine ⟨o2, ow, ho2, hA.trans how, hc.1, hc.2, ?_, ?_⟩
    · intro hb
      rw [hb] at how
      have : some o2 = some ow := ho2.symm.trans how
      simp only [Option.some.injEq] at this
      rw [this]
    · intro hnb
      have hinv := loop_token_state _ data_state .base a o rfl h1
      rw [hl] at hinv
      simp only [Bool.not_false, Bool.true_and] at hinv
      have hnb' : o.token.is_base = false := by
        cases h : o.token.is_base with
        | false => rfl
        | true => exact absurd ((is_base_iff _).1 h) hnb
      have hs : no_token_state o.state = false := by rw [← hinv]; exact hnb'
      refine ⟨loop_base_outside _ o.state b o2 hs ho2, ?_⟩
      intro hw
      have := loop_keeps_token _ _ _ _ ow hnb' how
      rw [hw] at this
      exact Bool.noConfusion this

/-- C2 amended, at three cuts: `<a>` and `<b>` (the first call returns a token),
`<!` and `--x-->` (a cut in `markup_declaration_open_state` that no window
reaches across) and `<a` and `>` (a token in progress). -/
theorem chunk_resume_witness :
    create_token_from_string ("<a>".toList ++ "<b>".toList) data_state =
        some ⟨.start_tag ['a'] [] false none, data_state, true⟩ ∧
      (∃ o2 ow : Outcome,
        create_token_from_string "--x-->".toList markup_declaration_open_state = some o2 ∧
        create_token_from_string ("<!".toList ++ "--x-->".toList) data_state = some ow ∧
        o2.state = ow.state ∧ o2.in_loop = ow.in_loop ∧
        (HTMLToken.base = .base → o2.token = ow.token) ∧
        (HTMLToken.base ≠ .base → o2.token = .base ∧ ow.token ≠ .base)) ∧
      (∃ o2 ow : Outcome,
        create_token_from_string ">".toList tag_name_state = some o2 ∧
        create_token_from_string ("<a".toList ++ ">".toList) data_state = some ow ∧
        o2.state = ow.state ∧ o2.in_loop = ow.in_loop ∧
        (HTMLToken.start_tag ['a'] [] false none = .base → o2.token = ow.token) ∧
        (HTMLToken.start_tag ['a'] [] false none ≠ .base →
          o2.token = .base ∧ ow.token ≠ .base)) :=
  ⟨(chunk_resume "<a>".toList "<b>".toList
      ⟨.start_tag ['a'] [] false none, data_state, true⟩ (by decide)).1 rfl,
    (chunk_resume "<!".toList "--x-->".toList
      ⟨.base, markup_declaration_open_state, false⟩ (by decide)).2 rfl (Or.inr (by decide)),
    (chunk_resume "<a".toList ">".toList
      ⟨.start_tag ['a'] [] false none, tag_name_state, false⟩ (by decide)).2 rfl
      (Or.inl (by decide))⟩

end WebWhir
